import Mathlib

/-!
Verification of the Inko VM execution core against its specification.

This file gives a shallow embedding of the relevant parts of the source:
`vm/src/config.rs` (the `Config` structure, its setters and the
environment-variable overlay), `vm/src/pools.rs` (`Pools` scheduling), and
`vm/src/immix/copy_object.rs` (the deep-copying evacuator), together with
theorems settling the frozen claims about them.
-/

set_option autoImplicit false

/-! ## Configuration (`vm/src/config.rs`) -/

/-- Modelled from the spec: `immix/block.rs` is not under `src/`; blocks are a
fixed power-of-two unit of heap growth.  The Immix block size is 32 KiB; the
exact value does not affect any claim (it only enters the default threshold
constants, which every claim treats as opaque defaults). -/
def BLOCK_SIZE : Nat := 32768

def DEFAULT_YOUNG_THRESHOLD : Nat := (8 * 1024 * 1024) / BLOCK_SIZE

def DEFAULT_MATURE_THRESHOLD : Nat := (16 * 1024 * 1024) / BLOCK_SIZE

def DEFAULT_MAILBOX_THRESHOLD : Nat := 1

/-- A decimal floating value `mantissa / 10 ^ exponent`.  The configuration
code only ever stores, overlays and compares its `f64` tunables — it never
computes with them — so `f64` is modelled by the exact decimal the program
text or the environment string denotes. -/
structure F64 where
  mantissa : Int
  exponent : Nat
deriving DecidableEq, Repr

/-- Whether the value is strictly positive (`> 0.0`). -/
def F64.isPos (x : F64) : Bool :=
  0 < x.mantissa

/-- `1.5`. -/
def DEFAULT_GROWTH_FACTOR : F64 := F64.mk 15 1

/-- `0.9`. -/
def DEFAULT_GROWTH_THRESHOLD : F64 := F64.mk 9 1

/-- `0.1`. -/
def DEFAULT_SUSPENSION_CHECK_INTERVAL : F64 := F64.mk 1 1

def DEFAULT_REDUCTIONS : Nat := 1000

/-- The `Config` structure of `vm/src/config.rs`.  `u8`/`usize` fields are
modelled as `Nat`; `f64` fields are modelled as decimal `F64` values (they
are only ever stored and compared by the code under consideration). -/
structure Config where
  directories : List String
  primary_threads : Nat
  secondary_threads : Nat
  gc_threads : Nat
  finalizer_threads : Nat
  generic_parallel_threads : Nat
  reductions : Nat
  suspension_check_interval : F64
  young_threshold : Nat
  mature_threshold : Nat
  heap_growth_factor : F64
  heap_growth_threshold : F64
  mailbox_threshold : Nat
  mailbox_growth_factor : F64
  mailbox_growth_threshold : F64
deriving DecidableEq, Repr

/-- `Config::new`.  `num_cpus::get()` is an environment probe, so the CPU
count is a parameter. -/
def Config.new (cpu_count : Nat) : Config where
  directories := []
  primary_threads := cpu_count
  secondary_threads := cpu_count
  gc_threads := cpu_count
  finalizer_threads := cpu_count
  generic_parallel_threads := cpu_count
  reductions := DEFAULT_REDUCTIONS
  suspension_check_interval := DEFAULT_SUSPENSION_CHECK_INTERVAL
  young_threshold := DEFAULT_YOUNG_THRESHOLD
  mature_threshold := DEFAULT_MATURE_THRESHOLD
  heap_growth_factor := DEFAULT_GROWTH_FACTOR
  heap_growth_threshold := DEFAULT_GROWTH_THRESHOLD
  mailbox_threshold := DEFAULT_MAILBOX_THRESHOLD
  mailbox_growth_factor := DEFAULT_GROWTH_FACTOR
  mailbox_growth_threshold := DEFAULT_GROWTH_THRESHOLD

/-- Decimal digit string to `Nat`; `none` on an empty string or a non-digit.
Models the digit fragment of Rust's integer `FromStr`. -/
def parseDigits (cs : List Char) : Option Nat :=
  if cs.isEmpty then Option.none
  else
    cs.foldl
      (fun acc c =>
        match acc with
        | Option.none => Option.none
        | Option.some n =>
          if c.isDigit then Option.some (n * 10 + (c.toNat - 48)) else Option.none)
      (Option.some 0)

/-- `str::parse::<u8>`: digits only, rejecting values above `u8::MAX`. -/
def parse_u8 (s : String) : Option Nat :=
  match parseDigits s.toList with
  | Option.some n => if n ≤ 255 then Option.some n else Option.none
  | Option.none => Option.none

/-- `str::parse::<usize>`: digits only, rejecting values at or above `2^64`. -/
def parse_usize (s : String) : Option Nat :=
  match parseDigits s.toList with
  | Option.some n => if n < 2 ^ 64 then Option.some n else Option.none
  | Option.none => Option.none

/-- Split a character list at the first `.`, keeping what follows it. -/
def splitDot : List Char → List Char × Option (List Char)
  | [] => ([], Option.none)
  | c :: rest =>
    if c = '.' then ([], Option.some rest)
    else
      let (intPart, fracPart) := splitDot rest
      (c :: intPart, fracPart)

/-- The decimal fragment of `str::parse::<f64>` (Rust standard library, not
part of this repository): a digit integer part and an optional nonempty
digit fractional part.  This covers every input the spec and the code's own
test exercise. -/
def parse_f64 (s : String) : Option F64 :=
  match splitDot s.toList with
  | (intPart, Option.none) => (parseDigits intPart).map (fun n => F64.mk n 0)
  | (intPart, Option.some fracPart) =>
    match parseDigits intPart, parseDigits fracPart with
    | Option.some n, Option.some f =>
      Option.some (F64.mk (n * 10 ^ fracPart.length + f) fracPart.length)
    | _, _ => Option.none

/-- The process environment, as the partial map `env::var` consults. -/
def Env : Type := String → Option String

/-- The `set_from_env!` macro of `config.rs`.  The macro concatenates the
fixed `INKO_` prefix onto the given suffix at expansion time, so callers below
pass the already-concatenated variable name.  A present variable that parses
overwrites the field via `upd`; a missing or unparseable one leaves the
configuration untouched. -/
def set_from_env {α : Type} (env : Env) (key : String) (parse : String → Option α)
    (config : Config) (upd : Config → α → Config) : Config :=
  match env key with
  | Option.some raw_value =>
    match parse raw_value with
    | Option.some value => upd config value
    | Option.none => config
  | Option.none => config

/-- `Config::populate_from_env`, one `set_from_env` per field in source
order.  Note that all five thread-count fields read the same
`INKO_CONCURRENCY` variable. -/
def Config.populate_from_env (env : Env) (c : Config) : Config :=
  let c := set_from_env env "INKO_CONCURRENCY" parse_u8 c
    (fun c v => { c with primary_threads := v })
  let c := set_from_env env "INKO_CONCURRENCY" parse_u8 c
    (fun c v => { c with secondary_threads := v })
  let c := set_from_env env "INKO_CONCURRENCY" parse_u8 c
    (fun c v => { c with gc_threads := v })
  let c := set_from_env env "INKO_CONCURRENCY" parse_u8 c
    (fun c v => { c with finalizer_threads := v })
  let c := set_from_env env "INKO_CONCURRENCY" parse_u8 c
    (fun c v => { c with generic_parallel_threads := v })
  let c := set_from_env env "INKO_REDUCTIONS" parse_usize c
    (fun c v => { c with reductions := v })
  let c := set_from_env env "INKO_SUSPENSION_CHECK_INTERVAL" parse_f64 c
    (fun c v => { c with suspension_check_interval := v })
  let c := set_from_env env "INKO_YOUNG_THRESHOLD" parse_usize c
    (fun c v => { c with young_threshold := v })
  let c := set_from_env env "INKO_MATURE_THRESHOLD" parse_usize c
    (fun c v => { c with mature_threshold := v })
  let c := set_from_env env "INKO_HEAP_GROWTH_FACTOR" parse_f64 c
    (fun c v => { c with heap_growth_factor := v })
  let c := set_from_env env "INKO_HEAP_GROWTH_THRESHOLD" parse_f64 c
    (fun c v => { c with heap_growth_threshold := v })
  let c := set_from_env env "INKO_MAILBOX_THRESHOLD" parse_usize c
    (fun c v => { c with mailbox_threshold := v })
  let c := set_from_env env "INKO_MAILBOX_GROWTH_FACTOR" parse_f64 c
    (fun c v => { c with mailbox_growth_factor := v })
  let c := set_from_env env "INKO_MAILBOX_GROWTH_THRESHOLD" parse_f64 c
    (fun c v => { c with mailbox_growth_threshold := v })
  c

/-- `Config::add_directory`. -/
def Config.add_directory (c : Config) (path : String) : Config :=
  { c with directories := c.directories ++ [path] }

/-- `Config::set_primary_threads`. -/
def Config.set_primary_threads (c : Config) (threads : Nat) : Config :=
  if threads = 0 then { c with primary_threads := 1 }
  else { c with primary_threads := threads }

/-- `Config::set_secondary_threads`. -/
def Config.set_secondary_threads (c : Config) (threads : Nat) : Config :=
  if threads = 0 then { c with secondary_threads := 1 }
  else { c with secondary_threads := threads }

/-- `Config::set_gc_threads`. -/
def Config.set_gc_threads (c : Config) (threads : Nat) : Config :=
  if threads = 0 then { c with gc_threads := 1 }
  else { c with gc_threads := threads }

/-- `Config::set_reductions`: only a strictly positive argument is stored. -/
def Config.set_reductions (c : Config) (reductions : Nat) : Config :=
  if reductions > 0 then { c with reductions := reductions } else c

/-- `Config::set_suspension_check_interval`. -/
def Config.set_suspension_check_interval (c : Config) (interval : F64) : Config :=
  if interval.isPos then { c with suspension_check_interval := interval } else c

/-! ## Process pools (`vm/src/pools.rs`) -/

/-- Modelled from the spec: `process.rs` is not under `src/`.  A process
carries a pid, an immutable pool id, and the scheduling flag that
`Process::scheduled` raises (the tests call it `available_for_execution`). -/
structure Process where
  pid : Nat
  pool_id : Nat
  available_for_execution : Bool
deriving DecidableEq, Repr

/-- `Process::scheduled` marks the process available for execution. -/
def Process.scheduled (p : Process) : Process :=
  { p with available_for_execution := true }

/-- Modelled from the spec: `pool.rs` is not under `src/`.  A pool owns a
fixed worker count and a run queue of processes; `schedule` appends to the
queue (worker signalling is a concurrency effect outside this embedding). -/
structure Pool where
  workers : Nat
  queue : List Process
deriving DecidableEq, Repr

/-- `Pool::new(n)`: `n` workers, empty queue. -/
def Pool.new (workers : Nat) : Pool where
  workers := workers
  queue := []

/-- `Pool::schedule`: append the process to the run queue. -/
def Pool.schedule (pool : Pool) (process : Process) : Pool :=
  { pool with queue := pool.queue ++ [process] }

/-- The `Pools` structure of `vm/src/pools.rs`: an array of `POOL_AMOUNT = 2`
pools, modelled as a list (its construction sites only ever build two). -/
structure Pools where
  pools : List Pool
deriving DecidableEq, Repr

def PRIMARY_POOL : Nat := 0

def SECONDARY_POOL : Nat := 1

/-- `Pools::new`. -/
def Pools.new (primary : Nat) (secondary : Nat) : Pools where
  pools := [Pool.new primary, Pool.new secondary]

/-- `Pools::get`: index into the pool array, `none` when out of bounds. -/
def Pools.get (ps : Pools) (index : Nat) : Option Pool :=
  ps.pools[index]?

/-- `Pools::schedule`: route by the process's pool id; an invalid id is the
`panic!` branch, modelled as `Except.error` carrying the panic message (so no
pool state is produced and nothing is enqueued). -/
def Pools.schedule (ps : Pools) (process : Process) : Except String Pools :=
  match ps.get process.pool_id with
  | Option.some pool =>
    .ok ⟨ps.pools.set process.pool_id (pool.schedule process.scheduled)⟩
  | Option.none =>
    .error ("The pool ID (" ++ toString process.pool_id ++ ") for process "
      ++ toString process.pid ++ " is invalid")

/-- `Pools::terminate` is a pure signal to every pool's workers; the only
state it changes in this embedding is nothing — it is included for
completeness of the surface. -/
def Pools.terminate (ps : Pools) : Pools := ps

/-! ## Object model (`vm/src/object_pointer.rs`, `vm/src/object.rs`) -/

/-- An object pointer: a heap address plus the permanence flag the allocator
assigned at allocation time.  Equality is bit-identity. -/
structure ObjectPointer where
  addr : Nat
  permanent : Bool
deriving DecidableEq, Repr

/-- `ObjectPointer::is_permanent`. -/
def ObjectPointer.is_permanent (p : ObjectPointer) : Bool :=
  p.permanent

/-- Modelled from the spec: `binding.rs` is not under `src/`.  A
variable-binding frame: ordered local slots, a receiver, and an optional
parent frame (the two constructors encode parent absence/presence). -/
inductive Binding where
  | base (locals : List ObjectPointer) (receiver : ObjectPointer)
  | nest (locals : List ObjectPointer) (receiver : ObjectPointer) (parent : Binding)
deriving DecidableEq, Repr

/-- The closed sum of `ObjectValue` kinds from `vm/src/object_value.rs`.
Scalar payloads keep their mathematical content (`Int`, `String`, byte
lists); float payloads are opaque bit patterns (they are only moved, never
computed with); handle kinds (library, function, raw pointer, process,
socket, module) carry an opaque token that `clone` duplicates; a block keeps
its code and module references and owns an optional captured binding and a
receiver pointer. -/
inductive ObjectValue where
  | none
  | float (bits : Nat)
  | integer (num : Int)
  | bigInt (num : Int)
  | string (s : String)
  | internedString (s : String)
  | array (elems : List ObjectPointer)
  | file (fd : Nat)
  | block (code : Nat) (captures_from : Option Binding) (receiver : ObjectPointer)
      (module : Nat)
  | binding (b : Binding)
  | hasher (state : Nat)
  | byteArray (bytes : List Nat)
  | library (val : Nat)
  | function (val : Nat)
  | pointer (val : Nat)
  | process (val : Nat)
  | socket (val : Nat)
  | module (val : Nat)
deriving DecidableEq, Repr

/-- Attribute mappings are keyed by object pointers; modelled as an ordered
association list (keys unique per object, insertion order irrelevant to the
claims). -/
abbrev AttributesMap := List (ObjectPointer × ObjectPointer)

/-- An `Object`: tagged value, optional prototype, optional attribute map. -/
structure Object where
  prototype : Option ObjectPointer := Option.none
  attributes : Option AttributesMap := Option.none
  value : ObjectValue
deriving DecidableEq, Repr

/-- `Object.attributes_map`. -/
def Object.attributes_map (o : Object) : Option AttributesMap :=
  o.attributes

/-- A heap: the allocated objects, addressed by `Nat`, plus the next fresh
address.  Both the source graph and the copies produced by the evacuator
live in this one address space (the target "heap" of the allocator is the
set of addresses at or above the starting `next`). -/
structure Heap where
  mem : List (Nat × Object)
  next : Nat
deriving DecidableEq, Repr

/-- Association-list lookup for heap cells. -/
def findAddr : List (Nat × Object) → Nat → Option Object
  | [], _ => Option.none
  | e :: rest, a => if e.1 = a then Option.some e.2 else findAddr rest a

/-- Dereference a pointer address (`ObjectPointer::get`). -/
def Heap.lookup (h : Heap) (a : Nat) : Option Object :=
  findAddr h.mem a

/-- `allocate_copy`: place an object at the next fresh address; the returned
pointer is non-permanent (copies are ordinary heap objects). -/
def Heap.alloc (h : Heap) (o : Object) : ObjectPointer × Heap :=
  (⟨h.next, false⟩, ⟨(h.next, o) :: h.mem, h.next + 1⟩)

/-- Overwrite the object stored at address `a` (used to express that
mutating a copy cannot affect the source). -/
def Heap.update (h : Heap) (a : Nat) (o : Object) : Heap :=
  ⟨h.mem.map (fun e => if e.1 = a then (a, o) else e), h.next⟩

/-- Well-formedness: every allocated address lies below the fresh-address
watermark. -/
def Heap.WF (h : Heap) : Prop :=
  ∀ e ∈ h.mem, e.1 < h.next

/-- Heap extension: copying only adds objects, it never changes or removes
an existing one. -/
def Heap.Extends (h h₁ : Heap) : Prop :=
  h.next ≤ h₁.next ∧ ∀ a o, h.lookup a = Option.some o → h₁.lookup a = Option.some o

/-! ## The copying evacuator (`vm/src/immix/copy_object.rs`) -/

/-- How a copy can fail to produce a result.  `fileNotCloneable` is the
`panic!("ObjectValue::File can not be cloned")` branch; `outOfFuel` is the
recursion-depth artifact of the embedding (the source recursion has no
depth bound at all); `invalidPointer` models dereferencing an address that
holds no object (undefined behaviour in the source, never reached from a
well-formed graph). -/
inductive CopyError where
  | outOfFuel
  | invalidPointer
  | fileNotCloneable
deriving DecidableEq, Repr

abbrev CopyResult (α : Type) := Except CopyError (α × Heap)

abbrev Copier := Heap → ObjectPointer → CopyResult ObjectPointer

/-- Copy a list of pointers left to right, threading the heap (the `Array`
arm's `iter().map(...).collect()`, and binding locals). -/
def copyPointers (cp : Copier) : Heap → List ObjectPointer → CopyResult (List ObjectPointer)
  | h, [] => .ok ([], h)
  | h, p :: ps =>
    match cp h p with
    | .error e => .error e
    | .ok (q, h₁) =>
      match copyPointers cp h₁ ps with
      | .error e => .error e
      | .ok (qs, h₂) => .ok (q :: qs, h₂)

/-- Copy every attribute key and value in iteration order, key before value,
building the fresh mapping (`for (key, val) in map.iter()`). -/
def copyAttributes (cp : Copier) : Heap → AttributesMap → CopyResult AttributesMap
  | h, [] => .ok ([], h)
  | h, (key, val) :: rest =>
    match cp h key with
    | .error e => .error e
    | .ok (key_copy, h₁) =>
      match cp h₁ val with
      | .error e => .error e
      | .ok (val_copy, h₂) =>
        match copyAttributes cp h₂ rest with
        | .error e => .error e
        | .ok (rest_copy, h₃) => .ok ((key_copy, val_copy) :: rest_copy, h₃)

/-- Modelled from the spec: `Binding::clone_to` (`binding.rs` is not under
`src/`) recursively evacuates every local slot, the receiver, and the parent
frame when present, producing an independent frame chain. -/
def Binding.clone_to (cp : Copier) : Heap → Binding → CopyResult Binding
  | h, .base locals receiver =>
    match copyPointers cp h locals with
    | .error e => .error e
    | .ok (locals_copy, h₁) =>
      match cp h₁ receiver with
      | .error e => .error e
      | .ok (receiver_copy, h₂) => .ok (.base locals_copy receiver_copy, h₂)
  | h, .nest locals receiver parent =>
    match copyPointers cp h locals with
    | .error e => .error e
    | .ok (locals_copy, h₁) =>
      match cp h₁ receiver with
      | .error e => .error e
      | .ok (receiver_copy, h₂) =>
        match Binding.clone_to cp h₂ parent with
        | .error e => .error e
        | .ok (parent_copy, h₃) => .ok (.nest locals_copy receiver_copy parent_copy, h₃)

/-- Clone the optional captured binding of a block
(`block.captures_from.as_ref().map(|b| b.clone_to(self))`). -/
def copyOptBinding (cp : Copier) (h : Heap) : Option Binding → CopyResult (Option Binding)
  | Option.none => .ok (Option.none, h)
  | Option.some b =>
    match Binding.clone_to cp h b with
    | .error e => .error e
    | .ok (b₁, h₁) => .ok (Option.some b₁, h₁)

/-- The `match to_copy.value` of `copy_object`, one arm per kind. -/
def copyValue (cp : Copier) (h : Heap) : ObjectValue → CopyResult ObjectValue
  | .none => .ok (.none, h)
  | .float num => .ok (.float num, h)
  | .integer num => .ok (.integer num, h)
  | .bigInt num => .ok (.bigInt num, h)
  | .string s => .ok (.string s, h)
  | .internedString s => .ok (.internedString s, h)
  | .array elems =>
    match copyPointers cp h elems with
    | .error e => .error e
    | .ok (elems_copy, h₁) => .ok (.array elems_copy, h₁)
  | .file _ => .error .fileNotCloneable
  | .block code captures_from receiver module =>
    match copyOptBinding cp h captures_from with
    | .error e => .error e
    | .ok (captures_copy, h₁) =>
      match cp h₁ receiver with
      | .error e => .error e
      | .ok (receiver_copy, h₂) =>
        .ok (.block code captures_copy receiver_copy module, h₂)
  | .binding b =>
    match Binding.clone_to cp h b with
    | .error e => .error e
    | .ok (binding_copy, h₁) => .ok (.binding binding_copy, h₁)
  | .hasher state => .ok (.hasher state, h)
  | .byteArray bytes => .ok (.byteArray bytes, h)
  | .library val => .ok (.library val, h)
  | .function val => .ok (.function val, h)
  | .pointer val => .ok (.pointer val, h)
  | .process val => .ok (.process val, h)
  | .socket val => .ok (.socket val, h)
  | .module val => .ok (.module val, h)

/-- Copy the optional prototype. -/
def copyOptPointer (cp : Copier) (h : Heap) : Option ObjectPointer → CopyResult (Option ObjectPointer)
  | Option.none => .ok (Option.none, h)
  | Option.some p =>
    match cp h p with
    | .error e => .error e
    | .ok (q, h₁) => .ok (Option.some q, h₁)

/-- Copy the optional attribute map. -/
def copyOptAttributes (cp : Copier) (h : Heap) : Option AttributesMap → CopyResult (Option AttributesMap)
  | Option.none => .ok (Option.none, h)
  | Option.some map =>
    match copyAttributes cp h map with
    | .error e => .error e
    | .ok (map_copy, h₁) => .ok (Option.some map_copy, h₁)

/-- One unfolding of `CopyObject::copy_object`, parameterized by the copier
used for the recursive calls: permanent pointers are returned as-is; the
value is copied first, then the prototype, then the attribute map, and the
assembled object is placed with `allocate_copy`. -/
def copyObjectStep (cp : Copier) (h : Heap) (to_copy_ptr : ObjectPointer) : CopyResult ObjectPointer :=
  if to_copy_ptr.is_permanent then .ok (to_copy_ptr, h)
  else
    match h.lookup to_copy_ptr.addr with
    | Option.none => .error .invalidPointer
    | Option.some to_copy =>
      match copyValue cp h to_copy.value with
      | .error e => .error e
      | .ok (value_copy, h₁) =>
        match copyOptPointer cp h₁ to_copy.prototype with
        | .error e => .error e
        | .ok (proto_copy, h₂) =>
          match copyOptAttributes cp h₂ to_copy.attributes with
          | .error e => .error e
          | .ok (attrs_copy, h₃) =>
            .ok (h₃.alloc { prototype := proto_copy, attributes := attrs_copy, value := value_copy })

/-- `copy_object`, with an explicit recursion-depth fuel: fuel decreases
exactly once per recursive `copy_object` call, so the fuel a copy needs is
exactly the depth of the object graph being copied (and a cyclic graph
exhausts every finite fuel). -/
def copy_object : Nat → Heap → ObjectPointer → CopyResult ObjectPointer
  | 0, _, _ => .error .outOfFuel
  | fuel + 1, h, p => copyObjectStep (copy_object fuel) h p

/-! ## Structural-copy checker (formalizing the spec's "structurally equal,
pointer-disjoint copy") -/

/-- Pairwise check of two lists. -/
def listCheck {α β : Type} (chk : α → β → Bool) : List α → List β → Bool
  | [], [] => true
  | a :: as, b :: bs => chk a b && listCheck chk as bs
  | _, _ => false

/-- Check of two optional values: both absent, or both present and related. -/
def optCheck {α β : Type} (chk : α → β → Bool) : Option α → Option β → Bool
  | Option.none, Option.none => true
  | Option.some a, Option.some b => chk a b
  | _, _ => false

/-- Pairwise check of two attribute maps: same length, and the key and value
of every entry related in order (so in particular the same key set, up to
the copy relation). -/
def attrsCheck (chk : ObjectPointer → ObjectPointer → Bool) : AttributesMap → AttributesMap → Bool
  | [], [] => true
  | (k, v) :: rest, (k₁, v₁) :: rest₁ => chk k k₁ && chk v v₁ && attrsCheck chk rest rest₁
  | _, _ => false

/-- Structural check of two binding frames under a pointer check. -/
def bindingCheck (chk : ObjectPointer → ObjectPointer → Bool) : Binding → Binding → Bool
  | .base locals receiver, .base locals₁ receiver₁ =>
    listCheck chk locals locals₁ && chk receiver receiver₁
  | .nest locals receiver parent, .nest locals₁ receiver₁ parent₁ =>
    listCheck chk locals locals₁ && chk receiver receiver₁ && bindingCheck chk parent parent₁
  | _, _ => false

/-- Structural check of two object values under a pointer check: same kind,
scalar payloads equal, nested pointers related, handle tokens equal; an open
file handle is never a valid copy of anything. -/
def valueCheck (chk : ObjectPointer → ObjectPointer → Bool) : ObjectValue → ObjectValue → Bool
  | .none, .none => true
  | .float a, .float b => decide (a = b)
  | .integer a, .integer b => decide (a = b)
  | .bigInt a, .bigInt b => decide (a = b)
  | .string a, .string b => decide (a = b)
  | .internedString a, .internedString b => decide (a = b)
  | .array elems, .array elems₁ => listCheck chk elems elems₁
  | .block code cap receiver module, .block code₁ cap₁ receiver₁ module₁ =>
    decide (code = code₁) && decide (module = module₁) &&
    optCheck (bindingCheck chk) cap cap₁ && chk receiver receiver₁
  | .binding b, .binding b₁ => bindingCheck chk b b₁
  | .hasher a, .hasher b => decide (a = b)
  | .byteArray a, .byteArray b => decide (a = b)
  | .library a, .library b => decide (a = b)
  | .function a, .function b => decide (a = b)
  | .pointer a, .pointer b => decide (a = b)
  | .process a, .process b => decide (a = b)
  | .socket a, .socket b => decide (a = b)
  | .module a, .module b => decide (a = b)
  | _, _ => false

/-- One level of the copy check in heap `h`: a permanent source is its own
copy; a non-permanent source must map to a fresh (`bound ≤ addr`),
non-permanent object whose value, prototype and attribute map all check
against the source's under `chk`. -/
def ptrCheckStep (bound : Nat) (h : Heap) (chk : ObjectPointer → ObjectPointer → Bool)
    (p q : ObjectPointer) : Bool :=
  if p.permanent then decide (q = p)
  else
    !q.permanent && decide (bound ≤ q.addr) &&
    match h.lookup p.addr, h.lookup q.addr with
    | Option.some o, Option.some o₁ =>
      valueCheck chk o.value o₁.value &&
      optCheck chk o.prototype o₁.prototype &&
      optCheck (attrsCheck chk) o.attributes o₁.attributes
    | _, _ => false

/-- `q` is a structurally-equal, pointer-disjoint copy of `p` in heap `h`,
to graph depth `fuel`: every non-permanent node on the copy side sits at an
address at or above `bound` (so it is disjoint from every address of the
original heap when `bound` is that heap's watermark). -/
def ptrCopied (bound : Nat) (h : Heap) : Nat → ObjectPointer → ObjectPointer → Bool
  | 0, _, _ => false
  | fuel + 1, p, q => ptrCheckStep bound h (ptrCopied bound h fuel) p q

/-! ## Depth-bounded reachability (the acyclicity precondition) -/

/-- Conjunction of a check over a list. -/
def allB {α : Type} (f : α → Bool) : List α → Bool
  | [] => true
  | a :: as => f a && allB f as

/-- Check of an optional value. -/
def optAll {α : Type} (f : α → Bool) : Option α → Bool
  | Option.none => true
  | Option.some a => f a

/-- Check over every key and value of an attribute map. -/
def attrsAll (f : ObjectPointer → Bool) : AttributesMap → Bool
  | [] => true
  | (k, v) :: rest => f k && f v && attrsAll f rest

/-- Check over every pointer of a binding frame chain. -/
def bindingAll (f : ObjectPointer → Bool) : Binding → Bool
  | .base locals receiver => allB f locals && f receiver
  | .nest locals receiver parent => allB f locals && f receiver && bindingAll f parent

/-- Check over every pointer directly referenced by a value; an open file
handle fails (it makes the copy fatal). -/
def valueOk (f : ObjectPointer → Bool) : ObjectValue → Bool
  | .none => true
  | .float _ => true
  | .integer _ => true
  | .bigInt _ => true
  | .string _ => true
  | .internedString _ => true
  | .array elems => allB f elems
  | .file _ => false
  | .block _ cap receiver _ => optAll (bindingAll f) cap && f receiver
  | .binding b => bindingAll f b
  | .hasher _ => true
  | .byteArray _ => true
  | .library _ => true
  | .function _ => true
  | .pointer _ => true
  | .process _ => true
  | .socket _ => true
  | .module _ => true

/-- One level of reachability: a permanent pointer needs nothing; a
non-permanent pointer must dereference to an object all of whose referenced
pointers satisfy `f`. -/
def reachOkStep (h : Heap) (f : ObjectPointer → Bool) (p : ObjectPointer) : Bool :=
  if p.permanent then true
  else
    match h.lookup p.addr with
    | Option.none => false
    | Option.some o =>
      valueOk f o.value && optAll f o.prototype && optAll (attrsAll f) o.attributes

/-- The graph reachable from `p` in `h` is valid (every non-permanent
pointer dereferences), contains no open file handle, and has depth at most
`d` — the operational form of the spec's "acyclic object graph"
precondition, with `d` the graph depth. -/
def depthOk (h : Heap) : Nat → ObjectPointer → Bool
  | 0, _ => false
  | d + 1, p => reachOkStep h (depthOk h d) p

/-! ## Concrete instances used by counterexamples and witnesses -/

/-- Environment holding exactly `INKO_PRIMARY_THREADS=42` and
`INKO_HEAP_GROWTH_FACTOR=4.2` — the variables claim C7 says the overlay
reads. -/
def envPrimaryVars : Env := fun k =>
  if k = "INKO_PRIMARY_THREADS" then Option.some "42"
  else if k = "INKO_HEAP_GROWTH_FACTOR" then Option.some "4.2"
  else Option.none

/-- Environment holding exactly `INKO_CONCURRENCY=42` and
`INKO_HEAP_GROWTH_FACTOR=4.2` — the variables the code actually reads (and
the ones its own test sets). -/
def envConcurrency : Env := fun k =>
  if k = "INKO_CONCURRENCY" then Option.some "42"
  else if k = "INKO_HEAP_GROWTH_FACTOR" then Option.some "4.2"
  else Option.none

/-- A self-referential object: the array at address 0 contains a pointer to
itself. -/
def cyclicHeap : Heap where
  mem := [(0, { value := .array [⟨0, false⟩] })]
  next := 1

def cyclicPtr : ObjectPointer := ⟨0, false⟩

/-- A small acyclic graph: an integer at address 0; at address 1 an array
`[ptr 0]` whose prototype is `ptr 0` and whose attribute map is
`{ptr 0 ↦ ptr 0}`. -/
def exHeap : Heap where
  mem :=
    [ (0, { value := .integer 5 }),
      (1, { prototype := Option.some ⟨0, false⟩,
            attributes := Option.some [(⟨0, false⟩, ⟨0, false⟩)],
            value := .array [⟨0, false⟩] }) ]
  next := 2

def exPtr : ObjectPointer := ⟨1, false⟩

/-- A one-element array of an integer, for the array-copy witness. -/
def arrHeap : Heap where
  mem :=
    [ (0, { value := .integer 7 }),
      (1, { value := .array [⟨0, false⟩] }) ]
  next := 2

def arrPtr : ObjectPointer := ⟨1, false⟩

/-- The result heap of copying `arrPtr` in `arrHeap` with fuel 2: the
integer is re-allocated at address 2, the new array at address 3. -/
def arrHeapCopied : Heap where
  mem :=
    [ (3, { value := .array [⟨2, false⟩] }),
      (2, { value := .integer 7 }),
      (0, { value := .integer 7 }),
      (1, { value := .array [⟨0, false⟩] }) ]
  next := 4

/-- An open file handle at address 0. -/
def fileHeap : Heap where
  mem := [(0, { value := .file 3 })]
  next := 1

def filePtr : ObjectPointer := ⟨0, false⟩

/-- The copier contract propagated through the recursion: on a well-formed
heap, a successful copy preserves well-formedness, only extends the heap,
and produces a structurally-equal, pointer-disjoint copy (fresh above the
input heap's watermark) to depth `fuel`. -/
def CpOk (fuel : Nat) (cp : Copier) : Prop :=
  ∀ h p q h₁, h.WF → cp h p = .ok (q, h₁) →
    h₁.WF ∧ h.Extends h₁ ∧ ptrCopied h.next h₁ fuel p q = true

/-- The totality contract: on a well-formed heap, the copier succeeds on
every pointer whose reachable graph is valid, file-free and of depth at
most `fuel`. -/
def CpTotal (fuel : Nat) (cp : Copier) : Prop :=
  ∀ h p, h.WF → depthOk h fuel p = true → ∃ q h₁, cp h p = .ok (q, h₁)

/-! ## Theorems: configuration -/

theorem set_from_env_eq_some {α : Type} (env : Env) (key : String)
    (parse : String → Option α) (c : Config) (upd : Config → α → Config)
    (raw : String) (v : α)
    (henv : env key = Option.some raw) (hp : parse raw = Option.some v) :
    set_from_env env key parse c upd = upd c v := by
  unfold set_from_env
  rw [henv]
  show (match parse raw with
        | Option.some value => upd c value
        | Option.none => c) = upd c v
  rw [hp]

theorem set_from_env_eq_none {α : Type} (env : Env) (key : String)
    (parse : String → Option α) (c : Config) (upd : Config → α → Config)
    (henv : env key = Option.none) :
    set_from_env env key parse c upd = c := by
  unfold set_from_env
  rw [henv]

theorem set_from_env_primary_threads {α : Type} (env : Env) (key : String)
    (parse : String → Option α) (c : Config) (upd : Config → α → Config)
    (h : ∀ c v, (upd c v).primary_threads = c.primary_threads) :
    (set_from_env env key parse c upd).primary_threads = c.primary_threads := by
  unfold set_from_env
  split
  · split
    · apply h
    · rfl
  · rfl

theorem set_from_env_secondary_threads {α : Type} (env : Env) (key : String)
    (parse : String → Option α) (c : Config) (upd : Config → α → Config)
    (h : ∀ c v, (upd c v).secondary_threads = c.secondary_threads) :
    (set_from_env env key parse c upd).secondary_threads = c.secondary_threads := by
  unfold set_from_env
  split
  · split
    · apply h
    · rfl
  · rfl

theorem set_from_env_gc_threads {α : Type} (env : Env) (key : String)
    (parse : String → Option α) (c : Config) (upd : Config → α → Config)
    (h : ∀ c v, (upd c v).gc_threads = c.gc_threads) :
    (set_from_env env key parse c upd).gc_threads = c.gc_threads := by
  unfold set_from_env
  split
  · split
    · apply h
    · rfl
  · rfl

theorem set_from_env_finalizer_threads {α : Type} (env : Env) (key : String)
    (parse : String → Option α) (c : Config) (upd : Config → α → Config)
    (h : ∀ c v, (upd c v).finalizer_threads = c.finalizer_threads) :
    (set_from_env env key parse c upd).finalizer_threads = c.finalizer_threads := by
  unfold set_from_env
  split
  · split
    · apply h
    · rfl
  · rfl

theorem set_from_env_generic_parallel_threads {α : Type} (env : Env) (key : String)
    (parse : String → Option α) (c : Config) (upd : Config → α → Config)
    (h : ∀ c v, (upd c v).generic_parallel_threads = c.generic_parallel_threads) :
    (set_from_env env key parse c upd).generic_parallel_threads = c.generic_parallel_threads := by
  unfold set_from_env
  split
  · split
    · apply h
    · rfl
  · rfl

/-- C9: for every `Config`, `set_primary_threads 0` results in
`primary_threads = 1`, and `set_primary_threads n` for `n > 0` results in
`primary_threads = n` (no upper bound is enforced). -/
theorem set_primary_threads_spec (c : Config) (n : Nat) :
    (c.set_primary_threads 0).primary_threads = 1 ∧
    (0 < n → (c.set_primary_threads n).primary_threads = n) := by
  constructor
  · simp [Config.set_primary_threads]
  · intro hn
    simp [Config.set_primary_threads, Nat.pos_iff_ne_zero.mp hn]

theorem set_primary_threads_spec_witness :
    ((Config.new 8).set_primary_threads 0).primary_threads = 1 ∧
    ((Config.new 8).set_primary_threads 5).primary_threads = 5 :=
  ⟨(set_primary_threads_spec (Config.new 8) 5).1,
   (set_primary_threads_spec (Config.new 8) 5).2 (by decide)⟩

/-- C8 (counterexample): `set_reductions 0` does not clamp the budget to 1 —
on the default configuration it leaves the budget at 1000. -/
theorem set_reductions_zero_counterexample :
    ((Config.new 4).set_reductions 0).reductions = 1000 ∧
    ¬ ((Config.new 4).set_reductions 0).reductions = 1 := by
  decide

/-- C8 (amended): `set_reductions 0` is a no-op (the prior budget is
retained), while `set_reductions n` for `n > 0` sets the budget to exactly
`n`. -/
theorem set_reductions_spec (c : Config) (n : Nat) :
    (c.set_reductions 0).reductions = c.reductions ∧
    (0 < n → (c.set_reductions n).reductions = n) := by
  constructor
  · simp [Config.set_reductions]
  · intro hn
    simp [Config.set_reductions, hn]

theorem set_reductions_spec_witness :
    ((Config.new 4).set_reductions 0).reductions = (Config.new 4).reductions ∧
    ((Config.new 4).set_reductions 5).reductions = 5 :=
  ⟨(set_reductions_spec (Config.new 4) 5).1,
   (set_reductions_spec (Config.new 4) 5).2 (by decide)⟩

/-- C7 (counterexample): with `INKO_PRIMARY_THREADS=42` and
`INKO_HEAP_GROWTH_FACTOR=4.2` in the environment, the overlay does *not*
change the primary-thread count (there is no per-field `PRIMARY_THREADS`
variable; thread counts are read from `INKO_CONCURRENCY`), while the
growth factor does change — refuting "exactly the primary-thread-count
field and the heap-growth-factor field are changed". -/
theorem populate_env_primary_vars_counterexample :
    (Config.populate_from_env envPrimaryVars (Config.new 8)).primary_threads = 8 ∧
    ¬ (Config.populate_from_env envPrimaryVars (Config.new 8)).primary_threads = 42 ∧
    (Config.populate_from_env envPrimaryVars (Config.new 8)).heap_growth_factor = F64.mk 42 1 := by
  decide

/-- C7 (amended): the thread counts are driven by the single
`INKO_CONCURRENCY` variable.  With exactly `INKO_CONCURRENCY=42` and
`INKO_HEAP_GROWTH_FACTOR=4.2` present, the overlay changes exactly the five
thread-count fields (all to 42) and the heap growth factor (to 4.2); every
other field keeps its constructed default. -/
theorem populate_env_overlay_amended (env : Env) (cpu : Nat)
    (h₁ : env "INKO_CONCURRENCY" = Option.some "42")
    (h₂ : env "INKO_HEAP_GROWTH_FACTOR" = Option.some "4.2")
    (h₃ : env "INKO_REDUCTIONS" = Option.none)
    (h₄ : env "INKO_SUSPENSION_CHECK_INTERVAL" = Option.none)
    (h₅ : env "INKO_YOUNG_THRESHOLD" = Option.none)
    (h₆ : env "INKO_MATURE_THRESHOLD" = Option.none)
    (h₇ : env "INKO_HEAP_GROWTH_THRESHOLD" = Option.none)
    (h₈ : env "INKO_MAILBOX_THRESHOLD" = Option.none)
    (h₉ : env "INKO_MAILBOX_GROWTH_FACTOR" = Option.none)
    (h₁₀ : env "INKO_MAILBOX_GROWTH_THRESHOLD" = Option.none) :
    Config.populate_from_env env (Config.new cpu) =
      { Config.new cpu with
          primary_threads := 42
          secondary_threads := 42
          gc_threads := 42
          finalizer_threads := 42
          generic_parallel_threads := 42
          heap_growth_factor := F64.mk 42 1 } := by
  have s₁ : ∀ c₁ upd, set_from_env env "INKO_CONCURRENCY" parse_u8 c₁ upd = upd c₁ 42 :=
    fun c₁ upd =>
      set_from_env_eq_some env "INKO_CONCURRENCY" parse_u8 c₁ upd "42" 42 h₁ rfl
  have s₂ : ∀ c₁ upd, set_from_env env "INKO_HEAP_GROWTH_FACTOR" parse_f64 c₁ upd = upd c₁ (F64.mk 42 1) :=
    fun c₁ upd =>
      set_from_env_eq_some env "INKO_HEAP_GROWTH_FACTOR" parse_f64 c₁ upd "4.2" (F64.mk 42 1) h₂ rfl
  have n₃ : ∀ (α : Type) (parse : String → Option α) c₁ upd,
      set_from_env env "INKO_REDUCTIONS" parse c₁ upd = c₁ :=
    fun α parse c₁ upd => set_from_env_eq_none env "INKO_REDUCTIONS" parse c₁ upd h₃
  have n₄ : ∀ (α : Type) (parse : String → Option α) c₁ upd,
      set_from_env env "INKO_SUSPENSION_CHECK_INTERVAL" parse c₁ upd = c₁ :=
    fun α parse c₁ upd =>
      set_from_env_eq_none env "INKO_SUSPENSION_CHECK_INTERVAL" parse c₁ upd h₄
  have n₅ : ∀ (α : Type) (parse : String → Option α) c₁ upd,
      set_from_env env "INKO_YOUNG_THRESHOLD" parse c₁ upd = c₁ :=
    fun α parse c₁ upd => set_from_env_eq_none env "INKO_YOUNG_THRESHOLD" parse c₁ upd h₅
  have n₆ : ∀ (α : Type) (parse : String → Option α) c₁ upd,
      set_from_env env "INKO_MATURE_THRESHOLD" parse c₁ upd = c₁ :=
    fun α parse c₁ upd => set_from_env_eq_none env "INKO_MATURE_THRESHOLD" parse c₁ upd h₆
  have n₇ : ∀ (α : Type) (parse : String → Option α) c₁ upd,
      set_from_env env "INKO_HEAP_GROWTH_THRESHOLD" parse c₁ upd = c₁ :=
    fun α parse c₁ upd =>
      set_from_env_eq_none env "INKO_HEAP_GROWTH_THRESHOLD" parse c₁ upd h₇
  have n₈ : ∀ (α : Type) (parse : String → Option α) c₁ upd,
      set_from_env env "INKO_MAILBOX_THRESHOLD" parse c₁ upd = c₁ :=
    fun α parse c₁ upd => set_from_env_eq_none env "INKO_MAILBOX_THRESHOLD" parse c₁ upd h₈
  have n₉ : ∀ (α : Type) (parse : String → Option α) c₁ upd,
      set_from_env env "INKO_MAILBOX_GROWTH_FACTOR" parse c₁ upd = c₁ :=
    fun α parse c₁ upd =>
      set_from_env_eq_none env "INKO_MAILBOX_GROWTH_FACTOR" parse c₁ upd h₉
  have n₁₀ : ∀ (α : Type) (parse : String → Option α) c₁ upd,
      set_from_env env "INKO_MAILBOX_GROWTH_THRESHOLD" parse c₁ upd = c₁ :=
    fun α parse c₁ upd =>
      set_from_env_eq_none env "INKO_MAILBOX_GROWTH_THRESHOLD" parse c₁ upd h₁₀
  simp only [Config.populate_from_env, s₁, s₂, n₃, n₄, n₅, n₆, n₇, n₈, n₉, n₁₀]

theorem populate_env_overlay_amended_witness :
    Config.populate_from_env envConcurrency (Config.new 8) =
      { Config.new 8 with
          primary_threads := 42
          secondary_threads := 42
          gc_threads := 42
          finalizer_threads := 42
          generic_parallel_threads := 42
          heap_growth_factor := F64.mk 42 1 } :=
  populate_env_overlay_amended envConcurrency 8
    rfl rfl rfl rfl rfl rfl rfl rfl rfl rfl

/-- C10: `populate_from_env` reads the single `INKO_CONCURRENCY` variable
for all five role thread counts, so whenever it is present and parses as a
`u8` value `v`, the primary, secondary, gc, finalizer and generic-parallel
thread counts all become `v` in one overlay. -/
theorem populate_env_concurrency_threads (env : Env) (s : String) (v : Nat) (c : Config)
    (hs : env "INKO_CONCURRENCY" = Option.some s)
    (hv : parse_u8 s = Option.some v) :
    (Config.populate_from_env env c).primary_threads = v ∧
    (Config.populate_from_env env c).secondary_threads = v ∧
    (Config.populate_from_env env c).gc_threads = v ∧
    (Config.populate_from_env env c).finalizer_threads = v ∧
    (Config.populate_from_env env c).generic_parallel_threads = v := by
  have s₁ : ∀ c₁ upd, set_from_env env "INKO_CONCURRENCY" parse_u8 c₁ upd = upd c₁ v :=
    fun c₁ upd => set_from_env_eq_some env "INKO_CONCURRENCY" parse_u8 c₁ upd s v hs hv
  refine ⟨?_, ?_, ?_, ?_, ?_⟩ <;>
    simp only [Config.populate_from_env, s₁] <;>
    simp [set_from_env_primary_threads, set_from_env_secondary_threads,
      set_from_env_gc_threads, set_from_env_finalizer_threads,
      set_from_env_generic_parallel_threads]

theorem populate_env_concurrency_threads_witness :
    (Config.populate_from_env envConcurrency (Config.new 8)).primary_threads = 42 ∧
    (Config.populate_from_env envConcurrency (Config.new 8)).secondary_threads = 42 ∧
    (Config.populate_from_env envConcurrency (Config.new 8)).gc_threads = 42 ∧
    (Config.populate_from_env envConcurrency (Config.new 8)).finalizer_threads = 42 ∧
    (Config.populate_from_env envConcurrency (Config.new 8)).generic_parallel_threads = 42 :=
  populate_env_concurrency_threads envConcurrency "42" 42 (Config.new 8) rfl rfl

/-! ## Theorems: pools -/

/-- C6: `Pools.schedule` forwards the process to the pool selected by its
pool id — id 0 enqueues (marked available for execution) only into the
primary pool, id 1 only into the secondary pool — and every id outside
`0..1` is fatal: the panic message names the pid and the invalid id, and no
pool state (hence no enqueue) is produced. -/
theorem pools_schedule_routes (a b : Pool) (process : Process) :
    Pools.schedule ⟨[a, b]⟩ process =
      (if process.pool_id = 0 then
        .ok ⟨[a.schedule process.scheduled, b]⟩
      else if process.pool_id = 1 then
        .ok ⟨[a, b.schedule process.scheduled]⟩
      else
        .error ("The pool ID (" ++ toString process.pool_id ++ ") for process "
          ++ toString process.pid ++ " is invalid")) := by
  rcases process with ⟨pid, pool_id, avail⟩
  rcases pool_id with _ | _ | n <;> rfl

/-! ## Theorems: heap basics -/

theorem Heap.Extends.refl (h : Heap) : h.Extends h :=
  ⟨Nat.le_refl _, fun _ _ hx => hx⟩

theorem Heap.Extends.trans {h₁ h₂ h₃ : Heap} (a : h₁.Extends h₂) (b : h₂.Extends h₃) :
    h₁.Extends h₃ :=
  ⟨Nat.le_trans a.1 b.1, fun x o hx => b.2 x o (a.2 x o hx)⟩

theorem findAddr_mem {mem : List (Nat × Object)} {a : Nat} {o : Object}
    (hf : findAddr mem a = Option.some o) : (a, o) ∈ mem := by
  induction mem with
  | nil => simp [findAddr] at hf
  | cons e rest ih =>
    simp only [findAddr] at hf
    split at hf
    · next he =>
      injection hf with hfo
      subst hfo
      rw [← he]
      exact List.mem_cons_self _ _
    · next he => exact List.mem_cons_of_mem e (ih hf)

theorem Heap.lookup_lt_next {h : Heap} (hwf : h.WF) {a : Nat} {o : Object}
    (hl : h.lookup a = Option.some o) : a < h.next :=
  hwf (a, o) (findAddr_mem hl)

theorem Heap.alloc_extends {h : Heap} (hwf : h.WF) (o : Object) :
    h.Extends (h.alloc o).2 := by
  refine ⟨Nat.le_succ _, fun a o₁ hl => ?_⟩
  have ha : a < h.next := h.lookup_lt_next hwf hl
  simp only [Heap.alloc, Heap.lookup, findAddr]
  rw [if_neg (Nat.ne_of_gt ha)]
  exact hl

theorem Heap.alloc_WF {h : Heap} (hwf : h.WF) (o : Object) : (h.alloc o).2.WF := by
  intro e he
  simp only [Heap.alloc, List.mem_cons] at he
  rcases he with rfl | he
  · exact Nat.lt_succ_self _
  · exact Nat.lt_succ_of_lt (hwf e he)

theorem Heap.alloc_lookup (h : Heap) (o : Object) :
    (h.alloc o).2.lookup h.next = Option.some o := by
  simp [Heap.alloc, Heap.lookup, findAddr]

theorem Heap.alloc_lookup_self (h : Heap) (o : Object) :
    (h.alloc o).2.lookup (h.alloc o).1.addr = Option.some o := by
  simp [Heap.alloc, Heap.lookup, findAddr]

theorem findAddr_map_update {mem : List (Nat × Object)} {a : Nat} {o : Object} {b : Nat}
    (hab : a ≠ b) :
    findAddr (mem.map (fun e => if e.1 = a then (a, o) else e)) b = findAddr mem b := by
  induction mem with
  | nil => rfl
  | cons e rest ih =>
    by_cases he : e.1 = a
    · have hb : ¬ e.1 = b := by rw [he]; exact hab
      simp only [List.map_cons, findAddr, if_pos he]
      rw [if_neg hab, if_neg hb]
      exact ih
    · simp only [List.map_cons, findAddr, if_neg he]
      by_cases hb : e.1 = b
      · rw [if_pos hb, if_pos hb]
      · rw [if_neg hb, if_neg hb]
        exact ih

theorem Heap.update_lookup_ne (h : Heap) (a : Nat) (o : Object) {b : Nat} (hab : a ≠ b) :
    (h.update a o).lookup b = h.lookup b :=
  findAddr_map_update hab

/-! ## Theorems: monotonicity of the structural checks -/

theorem listCheck_imp {α β : Type} {chk chk₁ : α → β → Bool}
    (h : ∀ a b, chk a b = true → chk₁ a b = true) :
    ∀ {xs : List α} {ys : List β}, listCheck chk xs ys = true → listCheck chk₁ xs ys = true := by
  intro xs
  induction xs with
  | nil => intro ys hxy; cases ys <;> simp_all [listCheck]
  | cons x xs ih =>
    intro ys hxy
    cases ys with
    | nil => simp [listCheck] at hxy
    | cons y ys =>
      simp only [listCheck, Bool.and_eq_true] at hxy ⊢
      exact ⟨h x y hxy.1, ih hxy.2⟩

theorem optCheck_imp {α β : Type} {chk chk₁ : α → β → Bool}
    (h : ∀ a b, chk a b = true → chk₁ a b = true) :
    ∀ {oa : Option α} {ob : Option β}, optCheck chk oa ob = true → optCheck chk₁ oa ob = true := by
  intro oa ob hab
  cases oa with
  | none =>
    cases ob with
    | none => rfl
    | some b => simp [optCheck] at hab
  | some a =>
    cases ob with
    | none => simp [optCheck] at hab
    | some b => exact h a b hab

theorem attrsCheck_imp {chk chk₁ : ObjectPointer → ObjectPointer → Bool}
    (h : ∀ a b, chk a b = true → chk₁ a b = true) :
    ∀ {xs ys : AttributesMap}, attrsCheck chk xs ys = true → attrsCheck chk₁ xs ys = true := by
  intro xs
  induction xs with
  | nil => intro ys hxy; cases ys <;> simp_all [attrsCheck]
  | cons x xs ih =>
    intro ys hxy
    obtain ⟨k, v⟩ := x
    cases ys with
    | nil => simp [attrsCheck] at hxy
    | cons y ys =>
      obtain ⟨k₁, v₁⟩ := y
      simp only [attrsCheck, Bool.and_eq_true] at hxy ⊢
      exact ⟨⟨h k k₁ hxy.1.1, h v v₁ hxy.1.2⟩, ih hxy.2⟩

theorem bindingCheck_imp {chk chk₁ : ObjectPointer → ObjectPointer → Bool}
    (h : ∀ a b, chk a b = true → chk₁ a b = true) :
    ∀ {b b₁ : Binding}, bindingCheck chk b b₁ = true → bindingCheck chk₁ b b₁ = true := by
  intro b
  induction b with
  | base locals receiver =>
    intro b₁ hb
    cases b₁ with
    | base locals₁ receiver₁ =>
      simp only [bindingCheck, Bool.and_eq_true] at hb ⊢
      exact ⟨listCheck_imp h hb.1, h _ _ hb.2⟩
    | nest _ _ _ => simp [bindingCheck] at hb
  | nest locals receiver parent ih =>
    intro b₁ hb
    cases b₁ with
    | base _ _ => simp [bindingCheck] at hb
    | nest locals₁ receiver₁ parent₁ =>
      simp only [bindingCheck, Bool.and_eq_true] at hb ⊢
      exact ⟨⟨listCheck_imp h hb.1.1, h _ _ hb.1.2⟩, ih hb.2⟩

theorem valueCheck_imp {chk chk₁ : ObjectPointer → ObjectPointer → Bool}
    (h : ∀ a b, chk a b = true → chk₁ a b = true) :
    ∀ {v v₁ : ObjectValue}, valueCheck chk v v₁ = true → valueCheck chk₁ v v₁ = true := by
  intro v v₁ hv
  cases v <;> cases v₁ <;> simp only [valueCheck] at hv ⊢ <;>
    first
    | exact hv
    | exact listCheck_imp h hv
    | exact bindingCheck_imp h hv
    | (simp only [Bool.and_eq_true] at hv ⊢
       exact ⟨⟨⟨hv.1.1.1, hv.1.1.2⟩,
          optCheck_imp (fun a b hab => bindingCheck_imp h hab) hv.1.2⟩, h _ _ hv.2⟩)

/-! ## Theorems: heap-extension and bound monotonicity of `ptrCopied` -/

theorem ptrCopied_mono {bound : Nat} {h h₁ : Heap} (hx : h.Extends h₁) :
    ∀ (fuel : Nat) (p q : ObjectPointer),
      ptrCopied bound h fuel p q = true → ptrCopied bound h₁ fuel p q = true := by
  intro fuel
  induction fuel with
  | zero => intro p q hpq; exact hpq
  | succ n ih =>
    intro p q hpq
    simp only [ptrCopied, ptrCheckStep] at hpq ⊢
    split at hpq
    · next hp => rw [if_pos hp]; exact hpq
    · next hp =>
      rw [if_neg hp]
      simp only [Bool.and_eq_true] at hpq ⊢
      refine ⟨hpq.1, ?_⟩
      have hrest := hpq.2
      split at hrest
      · next o o₁ hlp hlq =>
        rw [hx.2 _ _ hlp, hx.2 _ _ hlq]
        show (valueCheck (ptrCopied bound h₁ n) o.value o₁.value &&
          optCheck (ptrCopied bound h₁ n) o.prototype o₁.prototype &&
          optCheck (attrsCheck (ptrCopied bound h₁ n)) o.attributes o₁.attributes) = true
        simp only [Bool.and_eq_true] at hrest ⊢
        exact ⟨⟨valueCheck_imp ih hrest.1.1, optCheck_imp ih hrest.1.2⟩,
          optCheck_imp (fun a b hab => attrsCheck_imp ih hab) hrest.2⟩
      · next => simp at hrest

theorem ptrCopied_anti {bound bound₁ : Nat} (hb : bound₁ ≤ bound) {h : Heap} :
    ∀ (fuel : Nat) (p q : ObjectPointer),
      ptrCopied bound h fuel p q = true → ptrCopied bound₁ h fuel p q = true := by
  intro fuel
  induction fuel with
  | zero => intro p q hpq; exact hpq
  | succ n ih =>
    intro p q hpq
    simp only [ptrCopied, ptrCheckStep] at hpq ⊢
    split at hpq
    · next hp => rw [if_pos hp]; exact hpq
    · next hp =>
      rw [if_neg hp]
      simp only [Bool.and_eq_true] at hpq ⊢
      refine ⟨⟨hpq.1.1, decide_eq_true (Nat.le_trans hb (of_decide_eq_true hpq.1.2))⟩, ?_⟩
      have hrest := hpq.2
      split at hrest
      · next o o₁ hlp hlq =>
        simp only [Bool.and_eq_true] at hrest ⊢
        exact ⟨⟨valueCheck_imp ih hrest.1.1, optCheck_imp ih hrest.1.2⟩,
          optCheck_imp (fun a b hab => attrsCheck_imp ih hab) hrest.2⟩
      · next => simp at hrest

theorem ptrCopied_fresh {bound : Nat} {h : Heap} {fuel : Nat} {p q : ObjectPointer}
    (hpq : ptrCopied bound h fuel p q = true) (hq : q.permanent = false) :
    bound ≤ q.addr := by
  cases fuel with
  | zero => simp [ptrCopied] at hpq
  | succ n =>
    simp only [ptrCopied, ptrCheckStep] at hpq
    split at hpq
    · next hp =>
      have hqp := of_decide_eq_true hpq
      rw [hqp, hp] at hq
      simp at hq
    · next hp =>
      simp only [Bool.and_eq_true] at hpq
      exact of_decide_eq_true hpq.1.2

/-! ## Theorems: monotonicity of the reachability checks -/

theorem allB_imp {α : Type} {f g : α → Bool} (h : ∀ a, f a = true → g a = true) :
    ∀ {l : List α}, allB f l = true → allB g l = true := by
  intro l
  induction l with
  | nil => intro; rfl
  | cons a as ih =>
    intro hl
    simp only [allB, Bool.and_eq_true] at hl ⊢
    exact ⟨h a hl.1, ih hl.2⟩

theorem optAll_imp {α : Type} {f g : α → Bool} (h : ∀ a, f a = true → g a = true) :
    ∀ {o : Option α}, optAll f o = true → optAll g o = true := by
  intro o ho
  cases o with
  | none => rfl
  | some a => exact h a ho

theorem attrsAll_imp {f g : ObjectPointer → Bool} (h : ∀ a, f a = true → g a = true) :
    ∀ {m : AttributesMap}, attrsAll f m = true → attrsAll g m = true := by
  intro m
  induction m with
  | nil => intro; rfl
  | cons e rest ih =>
    obtain ⟨k, v⟩ := e
    intro hm
    simp only [attrsAll, Bool.and_eq_true] at hm ⊢
    exact ⟨⟨h k hm.1.1, h v hm.1.2⟩, ih hm.2⟩

theorem bindingAll_imp {f g : ObjectPointer → Bool} (h : ∀ a, f a = true → g a = true) :
    ∀ {b : Binding}, bindingAll f b = true → bindingAll g b = true := by
  intro b
  induction b with
  | base locals receiver =>
    intro hb
    simp only [bindingAll, Bool.and_eq_true] at hb ⊢
    exact ⟨allB_imp h hb.1, h _ hb.2⟩
  | nest locals receiver parent ih =>
    intro hb
    simp only [bindingAll, Bool.and_eq_true] at hb ⊢
    exact ⟨⟨allB_imp h hb.1.1, h _ hb.1.2⟩, ih hb.2⟩

theorem valueOk_imp {f g : ObjectPointer → Bool} (h : ∀ a, f a = true → g a = true) :
    ∀ {v : ObjectValue}, valueOk f v = true → valueOk g v = true := by
  intro v hv
  cases v <;> simp only [valueOk] at hv ⊢ <;>
    first
    | exact hv
    | exact allB_imp h hv
    | exact bindingAll_imp h hv
    | (simp only [Bool.and_eq_true] at hv ⊢
       exact ⟨optAll_imp (fun a ha => bindingAll_imp h ha) hv.1, h _ hv.2⟩)

theorem depthOk_mono {h h₁ : Heap} (hx : h.Extends h₁) :
    ∀ (d : Nat) (p : ObjectPointer), depthOk h d p = true → depthOk h₁ d p = true := by
  intro d
  induction d with
  | zero => intro p hp; exact hp
  | succ n ih =>
    intro p hp
    simp only [depthOk, reachOkStep] at hp ⊢
    split at hp
    · next hperm => rw [if_pos hperm]
    · next hperm =>
      rw [if_neg hperm]
      split at hp
      · next hlp => simp at hp
      · next o hlp =>
        rw [hx.2 _ _ hlp]
        show (valueOk (depthOk h₁ n) o.value && optAll (depthOk h₁ n) o.prototype &&
          optAll (attrsAll (depthOk h₁ n)) o.attributes) = true
        simp only [Bool.and_eq_true] at hp ⊢
        exact ⟨⟨valueOk_imp ih hp.1.1, optAll_imp ih hp.1.2⟩,
          optAll_imp (fun a ha => attrsAll_imp ih ha) hp.2⟩

/-! ## Theorems: a successful copy extends the heap and checks structurally -/

theorem ptrCheckStep_perm {bound : Nat} {h : Heap} {chk : ObjectPointer → ObjectPointer → Bool}
    {p : ObjectPointer} (hp : p.permanent = true) :
    ptrCheckStep bound h chk p p = true := by
  simp only [ptrCheckStep]
  rw [if_pos hp]
  simp

theorem ptrCheckStep_intro {bound : Nat} {h : Heap} {chk : ObjectPointer → ObjectPointer → Bool}
    {p q : ObjectPointer} {o o₁ : Object}
    (hp : p.permanent = false) (hq : q.permanent = false) (hb : bound ≤ q.addr)
    (hlp : h.lookup p.addr = Option.some o) (hlq : h.lookup q.addr = Option.some o₁)
    (hv : valueCheck chk o.value o₁.value = true)
    (hpr : optCheck chk o.prototype o₁.prototype = true)
    (ha : optCheck (attrsCheck chk) o.attributes o₁.attributes = true) :
    ptrCheckStep bound h chk p q = true := by
  simp only [ptrCheckStep]
  rw [if_neg (by simp [hp])]
  rw [hlp, hlq]
  simp [hq, hb, hv, hpr, ha]

theorem copyPointers_ok {fuel : Nat} {cp : Copier} (H : CpOk fuel cp) :
    ∀ (ps : List ObjectPointer) (h : Heap) (qs : List ObjectPointer) (h₁ : Heap),
      h.WF → copyPointers cp h ps = .ok (qs, h₁) →
      h₁.WF ∧ h.Extends h₁ ∧ listCheck (ptrCopied h.next h₁ fuel) ps qs = true := by
  intro ps
  induction ps with
  | nil =>
    intro h qs h₁ hwf hc
    simp only [copyPointers] at hc
    cases hc
    exact ⟨hwf, Heap.Extends.refl h, rfl⟩
  | cons p ps ih =>
    intro h qs h₁ hwf hc
    simp only [copyPointers] at hc
    split at hc
    · next e heq => simp at hc
    · next q h₂ heq =>
      split at hc
      · next e heq₂ => simp at hc
      · next qs₂ h₃ heq₂ =>
        cases hc
        obtain ⟨hwf₂, hx₂, hchk₂⟩ := H h p q h₂ hwf heq
        obtain ⟨hwf₃, hx₃, hchk₃⟩ := ih h₂ qs₂ h₁ hwf₂ heq₂
        refine ⟨hwf₃, hx₂.trans hx₃, ?_⟩
        simp only [listCheck, Bool.and_eq_true]
        exact ⟨ptrCopied_mono hx₃ fuel p q hchk₂,
          listCheck_imp (fun a b hab => ptrCopied_anti hx₂.1 fuel a b hab) hchk₃⟩

theorem copyAttributes_ok {fuel : Nat} {cp : Copier} (H : CpOk fuel cp) :
    ∀ (m : AttributesMap) (h : Heap) (m₁ : AttributesMap) (h₁ : Heap),
      h.WF → copyAttributes cp h m = .ok (m₁, h₁) →
      h₁.WF ∧ h.Extends h₁ ∧ attrsCheck (ptrCopied h.next h₁ fuel) m m₁ = true := by
  intro m
  induction m with
  | nil =>
    intro h m₁ h₁ hwf hc
    simp only [copyAttributes] at hc
    cases hc
    exact ⟨hwf, Heap.Extends.refl h, rfl⟩
  | cons e rest ih =>
    obtain ⟨key, val⟩ := e
    intro h m₁ h₁ hwf hc
    simp only [copyAttributes] at hc
    split at hc
    · next e₀ heq => simp at hc
    · next k₁ h₂ heq =>
      split at hc
      · next e₀ heq₂ => simp at hc
      · next v₁ h₃ heq₂ =>
        split at hc
        · next e₀ heq₃ => simp at hc
        · next rest₁ h₄ heq₃ =>
          cases hc
          obtain ⟨hwf₂, hx₂, hkchk⟩ := H h key k₁ h₂ hwf heq
          obtain ⟨hwf₃, hx₃, hvchk⟩ := H h₂ val v₁ h₃ hwf₂ heq₂
          obtain ⟨hwf₄, hx₄, hrchk⟩ := ih h₃ rest₁ h₁ hwf₃ heq₃
          refine ⟨hwf₄, (hx₂.trans hx₃).trans hx₄, ?_⟩
          simp only [attrsCheck, Bool.and_eq_true]
          refine ⟨⟨?_, ?_⟩, ?_⟩
          · exact ptrCopied_mono (hx₃.trans hx₄) fuel key k₁ hkchk
          · exact ptrCopied_mono hx₄ fuel val v₁
              (ptrCopied_anti hx₂.1 fuel val v₁ hvchk)
          · exact attrsCheck_imp
              (fun a b hab => ptrCopied_anti (Nat.le_trans hx₂.1 hx₃.1) fuel a b hab) hrchk

theorem clone_to_ok {fuel : Nat} {cp : Copier} (H : CpOk fuel cp) :
    ∀ (b : Binding) (h : Heap) (b₁ : Binding) (h₁ : Heap),
      h.WF → Binding.clone_to cp h b = .ok (b₁, h₁) →
      h₁.WF ∧ h.Extends h₁ ∧ bindingCheck (ptrCopied h.next h₁ fuel) b b₁ = true := by
  intro b
  induction b with
  | base locals receiver =>
    intro h b₁ h₁ hwf hc
    simp only [Binding.clone_to] at hc
    split at hc
    · next e heq => simp at hc
    · next ls h₂ heq =>
      split at hc
      · next e heq₂ => simp at hc
      · next r h₃ heq₂ =>
        cases hc
        obtain ⟨hwf₂, hx₂, hlchk⟩ := copyPointers_ok H locals h ls h₂ hwf heq
        obtain ⟨hwf₃, hx₃, hrchk⟩ := H h₂ receiver r h₁ hwf₂ heq₂
        refine ⟨hwf₃, hx₂.trans hx₃, ?_⟩
        simp only [bindingCheck, Bool.and_eq_true]
        exact ⟨listCheck_imp (fun a c hac => ptrCopied_mono hx₃ fuel a c hac) hlchk,
          ptrCopied_anti hx₂.1 fuel receiver r hrchk⟩
  | nest locals receiver parent ih =>
    intro h b₁ h₁ hwf hc
    simp only [Binding.clone_to] at hc
    split at hc
    · next e heq => simp at hc
    · next ls h₂ heq =>
      split at hc
      · next e heq₂ => simp at hc
      · next r h₃ heq₂ =>
        split at hc
        · next e heq₃ => simp at hc
        · next par h₄ heq₃ =>
          cases hc
          obtain ⟨hwf₂, hx₂, hlchk⟩ := copyPointers_ok H locals h ls h₂ hwf heq
          obtain ⟨hwf₃, hx₃, hrchk⟩ := H h₂ receiver r h₃ hwf₂ heq₂
          obtain ⟨hwf₄, hx₄, hpchk⟩ := ih h₃ par h₁ hwf₃ heq₃
          refine ⟨hwf₄, (hx₂.trans hx₃).trans hx₄, ?_⟩
          simp only [bindingCheck, Bool.and_eq_true]
          refine ⟨⟨?_, ?_⟩, ?_⟩
          · exact listCheck_imp
              (fun a c hac => ptrCopied_mono (hx₃.trans hx₄) fuel a c hac) hlchk
          · exact ptrCopied_mono hx₄ fuel receiver r
              (ptrCopied_anti hx₂.1 fuel receiver r hrchk)
          · exact bindingCheck_imp
              (fun a c hac => ptrCopied_anti (Nat.le_trans hx₂.1 hx₃.1) fuel a c hac) hpchk

theorem copyOptPointer_ok {fuel : Nat} {cp : Copier} (H : CpOk fuel cp) :
    ∀ (op : Option ObjectPointer) (h : Heap) (oq : Option ObjectPointer) (h₁ : Heap),
      h.WF → copyOptPointer cp h op = .ok (oq, h₁) →
      h₁.WF ∧ h.Extends h₁ ∧ optCheck (ptrCopied h.next h₁ fuel) op oq = true := by
  intro op h oq h₁ hwf hc
  cases op with
  | none =>
    simp only [copyOptPointer] at hc
    cases hc
    exact ⟨hwf, Heap.Extends.refl h, rfl⟩
  | some p =>
    simp only [copyOptPointer] at hc
    split at hc
    · next e heq => simp at hc
    · next q h₂ heq =>
      cases hc
      obtain ⟨hwf₂, hx₂, hchk⟩ := H h p q h₁ hwf heq
      exact ⟨hwf₂, hx₂, hchk⟩

theorem copyOptAttributes_ok {fuel : Nat} {cp : Copier} (H : CpOk fuel cp) :
    ∀ (om : Option AttributesMap) (h : Heap) (om₁ : Option AttributesMap) (h₁ : Heap),
      h.WF → copyOptAttributes cp h om = .ok (om₁, h₁) →
      h₁.WF ∧ h.Extends h₁ ∧
        optCheck (attrsCheck (ptrCopied h.next h₁ fuel)) om om₁ = true := by
  intro om h om₁ h₁ hwf hc
  cases om with
  | none =>
    simp only [copyOptAttributes] at hc
    cases hc
    exact ⟨hwf, Heap.Extends.refl h, rfl⟩
  | some m =>
    simp only [copyOptAttributes] at hc
    split at hc
    · next e heq => simp at hc
    · next m₁ h₂ heq =>
      cases hc
      obtain ⟨hwf₂, hx₂, hchk⟩ := copyAttributes_ok H m h m₁ h₁ hwf heq
      exact ⟨hwf₂, hx₂, hchk⟩

theorem copyOptBinding_ok {fuel : Nat} {cp : Copier} (H : CpOk fuel cp) :
    ∀ (ob : Option Binding) (h : Heap) (ob₁ : Option Binding) (h₁ : Heap),
      h.WF → copyOptBinding cp h ob = .ok (ob₁, h₁) →
      h₁.WF ∧ h.Extends h₁ ∧
        optCheck (bindingCheck (ptrCopied h.next h₁ fuel)) ob ob₁ = true := by
  intro ob h ob₁ h₁ hwf hc
  cases ob with
  | none =>
    simp only [copyOptBinding] at hc
    cases hc
    exact ⟨hwf, Heap.Extends.refl h, rfl⟩
  | some b =>
    simp only [copyOptBinding] at hc
    split at hc
    · next e heq => simp at hc
    · next b₂ h₂ heq =>
      cases hc
      obtain ⟨hwf₂, hx₂, hchk⟩ := clone_to_ok H b h b₂ h₁ hwf heq
      exact ⟨hwf₂, hx₂, hchk⟩

theorem copyValue_ok {fuel : Nat} {cp : Copier} (H : CpOk fuel cp) :
    ∀ (v : ObjectValue) (h : Heap) (v₁ : ObjectValue) (h₁ : Heap),
      h.WF → copyValue cp h v = .ok (v₁, h₁) →
      h₁.WF ∧ h.Extends h₁ ∧ valueCheck (ptrCopied h.next h₁ fuel) v v₁ = true := by
  intro v h v₁ h₁ hwf hc
  cases v with
  | none =>
    simp only [copyValue] at hc
    cases hc
    exact ⟨hwf, Heap.Extends.refl h, by simp [valueCheck]⟩
  | float num =>
    simp only [copyValue] at hc
    cases hc
    exact ⟨hwf, Heap.Extends.refl h, by simp [valueCheck]⟩
  | integer num =>
    simp only [copyValue] at hc
    cases hc
    exact ⟨hwf, Heap.Extends.refl h, by simp [valueCheck]⟩
  | bigInt num =>
    simp only [copyValue] at hc
    cases hc
    exact ⟨hwf, Heap.Extends.refl h, by simp [valueCheck]⟩
  | string s =>
    simp only [copyValue] at hc
    cases hc
    exact ⟨hwf, Heap.Extends.refl h, by simp [valueCheck]⟩
  | internedString s =>
    simp only [copyValue] at hc
    cases hc
    exact ⟨hwf, Heap.Extends.refl h, by simp [valueCheck]⟩
  | array elems =>
    simp only [copyValue] at hc
    split at hc
    · next e heq => simp at hc
    · next elems₂ h₂ heq =>
      cases hc
      obtain ⟨hwf₂, hx₂, hchk⟩ := copyPointers_ok H elems h elems₂ h₁ hwf heq
      exact ⟨hwf₂, hx₂, hchk⟩
  | file fd => simp [copyValue] at hc
  | block code captures receiver module =>
    simp only [copyValue] at hc
    split at hc
    · next e heq => simp at hc
    · next cap₁ h₂ heq =>
      split at hc
      · next e heq₂ => simp at hc
      · next r h₃ heq₂ =>
        cases hc
        obtain ⟨hwf₂, hx₂, hcchk⟩ := copyOptBinding_ok H captures h cap₁ h₂ hwf heq
        obtain ⟨hwf₃, hx₃, hrchk⟩ := H h₂ receiver r h₁ hwf₂ heq₂
        refine ⟨hwf₃, hx₂.trans hx₃, ?_⟩
        show (decide (code = code) && decide (module = module) &&
          optCheck (bindingCheck (ptrCopied h.next h₁ fuel)) captures cap₁ &&
          ptrCopied h.next h₁ fuel receiver r) = true
        simp only [Bool.and_eq_true]
        refine ⟨⟨⟨by simp, by simp⟩, ?_⟩, ?_⟩
        · exact optCheck_imp
            (fun a c hac => bindingCheck_imp
              (fun a₁ c₁ hac₁ => ptrCopied_mono hx₃ fuel a₁ c₁ hac₁) hac) hcchk
        · exact ptrCopied_anti hx₂.1 fuel receiver r hrchk
  | binding b =>
    simp only [copyValue] at hc
    split at hc
    · next e heq => simp at hc
    · next b₂ h₂ heq =>
      cases hc
      obtain ⟨hwf₂, hx₂, hbchk⟩ := clone_to_ok H b h b₂ h₁ hwf heq
      exact ⟨hwf₂, hx₂, hbchk⟩
  | hasher state =>
    simp only [copyValue] at hc
    cases hc
    exact ⟨hwf, Heap.Extends.refl h, by simp [valueCheck]⟩
  | byteArray bytes =>
    simp only [copyValue] at hc
    cases hc
    exact ⟨hwf, Heap.Extends.refl h, by simp [valueCheck]⟩
  | library val =>
    simp only [copyValue] at hc
    cases hc
    exact ⟨hwf, Heap.Extends.refl h, by simp [valueCheck]⟩
  | function val =>
    simp only [copyValue] at hc
    cases hc
    exact ⟨hwf, Heap.Extends.refl h, by simp [valueCheck]⟩
  | pointer val =>
    simp only [copyValue] at hc
    cases hc
    exact ⟨hwf, Heap.Extends.refl h, by simp [valueCheck]⟩
  | process val =>
    simp only [copyValue] at hc
    cases hc
    exact ⟨hwf, Heap.Extends.refl h, by simp [valueCheck]⟩
  | socket val =>
    simp only [copyValue] at hc
    cases hc
    exact ⟨hwf, Heap.Extends.refl h, by simp [valueCheck]⟩
  | module val =>
    simp only [copyValue] at hc
    cases hc
    exact ⟨hwf, Heap.Extends.refl h, by simp [valueCheck]⟩

theorem copyObjectStep_ok {fuel : Nat} {cp : Copier} (H : CpOk fuel cp) :
    ∀ (h : Heap) (p q : ObjectPointer) (h₁ : Heap),
      h.WF → copyObjectStep cp h p = .ok (q, h₁) →
      h₁.WF ∧ h.Extends h₁ ∧ ptrCopied h.next h₁ (fuel + 1) p q = true := by
  intro h p q h₁ hwf hc
  simp only [copyObjectStep] at hc
  split at hc
  · next hp =>
    cases hc
    refine ⟨hwf, Heap.Extends.refl h, ?_⟩
    show ptrCheckStep h.next h (ptrCopied h.next h fuel) p p = true
    exact ptrCheckStep_perm hp
  · next hp =>
    split at hc
    · next hlp => simp at hc
    · next to_copy hlp =>
      split at hc
      · next e heq => simp at hc
      · next value_copy h₂ heq =>
        split at hc
        · next e heq₂ => simp at hc
        · next proto_copy h₃ heq₂ =>
          split at hc
          · next e heq₃ => simp at hc
          · next attrs_copy h₄ heq₃ =>
            injection hc with hc₁
            have hq := congrArg Prod.fst hc₁
            have hh := congrArg Prod.snd hc₁
            subst hq
            subst hh
            obtain ⟨hwf₂, hx₂, hvchk⟩ := copyValue_ok H to_copy.value h value_copy h₂ hwf heq
            obtain ⟨hwf₃, hx₃, hpchk⟩ :=
              copyOptPointer_ok H to_copy.prototype h₂ proto_copy h₃ hwf₂ heq₂
            obtain ⟨hwf₄, hx₄, hachk⟩ :=
              copyOptAttributes_ok H to_copy.attributes h₃ attrs_copy h₄ hwf₃ heq₃
            have hx₅ : h₄.Extends (h₄.alloc
                { prototype := proto_copy, attributes := attrs_copy, value := value_copy }).2 :=
              Heap.alloc_extends hwf₄ _
            have hxall : h.Extends (h₄.alloc
                { prototype := proto_copy, attributes := attrs_copy, value := value_copy }).2 :=
              ((hx₂.trans hx₃).trans hx₄).trans hx₅
            refine ⟨Heap.alloc_WF hwf₄ _, hxall, ?_⟩
            show ptrCheckStep h.next _ (ptrCopied h.next _ fuel) p _ = true
            refine ptrCheckStep_intro ?_ rfl
              (Nat.le_trans hx₂.1 (Nat.le_trans hx₃.1 hx₄.1))
              (hxall.2 _ _ hlp) (Heap.alloc_lookup_self h₄ _) ?_ ?_ ?_
            · have hpb : ¬ p.permanent = true := hp
              cases hpp : p.permanent
              · rfl
              · exact absurd hpp hpb
            · exact valueCheck_imp
                (fun a c hac => ptrCopied_mono ((hx₃.trans hx₄).trans hx₅) fuel a c hac) hvchk
            · exact optCheck_imp
                (fun a c hac => ptrCopied_mono (hx₄.trans hx₅) fuel a c
                  (ptrCopied_anti hx₂.1 fuel a c hac)) hpchk
            · exact optCheck_imp
                (fun a c hac => attrsCheck_imp
                  (fun a₁ c₁ hac₁ => ptrCopied_mono hx₅ fuel a₁ c₁
                    (ptrCopied_anti (Nat.le_trans hx₂.1 hx₃.1) fuel a₁ c₁ hac₁)) hac) hachk

theorem copy_object_ok : ∀ fuel, CpOk fuel (copy_object fuel) := by
  intro fuel
  induction fuel with
  | zero =>
    intro h p q h₁ hwf hc
    simp [copy_object] at hc
  | succ n ih =>
    intro h p q h₁ hwf hc
    simp only [copy_object] at hc
    exact copyObjectStep_ok ih h p q h₁ hwf hc

/-! ## Theorems: the copy succeeds on depth-bounded (acyclic) graphs -/

theorem copyPointers_total {fuel : Nat} {cp : Copier} (Hok : CpOk fuel cp)
    (Htot : CpTotal fuel cp) :
    ∀ (ps : List ObjectPointer) (h : Heap), h.WF → allB (depthOk h fuel) ps = true →
      ∃ qs h₁, copyPointers cp h ps = .ok (qs, h₁) := by
  intro ps
  induction ps with
  | nil => intro h hwf hd; exact ⟨[], h, rfl⟩
  | cons p ps ih =>
    intro h hwf hd
    simp only [allB, Bool.and_eq_true] at hd
    obtain ⟨q, h₂, hcp⟩ := Htot h p hwf hd.1
    obtain ⟨hwf₂, hx₂, _⟩ := Hok h p q h₂ hwf hcp
    obtain ⟨qs, h₃, hrec⟩ :=
      ih h₂ hwf₂ (allB_imp (fun a ha => depthOk_mono hx₂ fuel a ha) hd.2)
    exact ⟨q :: qs, h₃, by simp only [copyPointers, hcp, hrec]⟩

theorem copyAttributes_total {fuel : Nat} {cp : Copier} (Hok : CpOk fuel cp)
    (Htot : CpTotal fuel cp) :
    ∀ (m : AttributesMap) (h : Heap), h.WF → attrsAll (depthOk h fuel) m = true →
      ∃ m₁ h₁, copyAttributes cp h m = .ok (m₁, h₁) := by
  intro m
  induction m with
  | nil => intro h hwf hd; exact ⟨[], h, rfl⟩
  | cons e rest ih =>
    obtain ⟨key, val⟩ := e
    intro h hwf hd
    simp only [attrsAll, Bool.and_eq_true] at hd
    obtain ⟨k₁, h₂, hk⟩ := Htot h key hwf hd.1.1
    obtain ⟨hwf₂, hx₂, _⟩ := Hok h key k₁ h₂ hwf hk
    obtain ⟨v₁, h₃, hv⟩ := Htot h₂ val hwf₂ (depthOk_mono hx₂ fuel val hd.1.2)
    obtain ⟨hwf₃, hx₃, _⟩ := Hok h₂ val v₁ h₃ hwf₂ hv
    obtain ⟨rest₁, h₄, hr⟩ := ih h₃ hwf₃
      (attrsAll_imp (fun a ha => depthOk_mono (hx₂.trans hx₃) fuel a ha) hd.2)
    exact ⟨(k₁, v₁) :: rest₁, h₄, by simp only [copyAttributes, hk, hv, hr]⟩

theorem clone_to_total {fuel : Nat} {cp : Copier} (Hok : CpOk fuel cp)
    (Htot : CpTotal fuel cp) :
    ∀ (b : Binding) (h : Heap), h.WF → bindingAll (depthOk h fuel) b = true →
      ∃ b₁ h₁, Binding.clone_to cp h b = .ok (b₁, h₁) := by
  intro b
  induction b with
  | base locals receiver =>
    intro h hwf hd
    simp only [bindingAll, Bool.and_eq_true] at hd
    obtain ⟨ls, h₂, hls⟩ := copyPointers_total Hok Htot locals h hwf hd.1
    obtain ⟨hwf₂, hx₂, _⟩ := copyPointers_ok Hok locals h ls h₂ hwf hls
    obtain ⟨r, h₃, hr⟩ := Htot h₂ receiver hwf₂ (depthOk_mono hx₂ fuel receiver hd.2)
    exact ⟨.base ls r, h₃, by simp only [Binding.clone_to, hls, hr]⟩
  | nest locals receiver parent ih =>
    intro h hwf hd
    simp only [bindingAll, Bool.and_eq_true] at hd
    obtain ⟨ls, h₂, hls⟩ := copyPointers_total Hok Htot locals h hwf hd.1.1
    obtain ⟨hwf₂, hx₂, _⟩ := copyPointers_ok Hok locals h ls h₂ hwf hls
    obtain ⟨r, h₃, hr⟩ := Htot h₂ receiver hwf₂ (depthOk_mono hx₂ fuel receiver hd.1.2)
    obtain ⟨hwf₃, hx₃, _⟩ := Hok h₂ receiver r h₃ hwf₂ hr
    obtain ⟨par, h₄, hp⟩ := ih h₃ hwf₃
      (bindingAll_imp (fun a ha => depthOk_mono (hx₂.trans hx₃) fuel a ha) hd.2)
    exact ⟨.nest ls r par, h₄, by simp only [Binding.clone_to, hls, hr, hp]⟩

theorem copyOptPointer_total {fuel : Nat} {cp : Copier} (Htot : CpTotal fuel cp) :
    ∀ (op : Option ObjectPointer) (h : Heap), h.WF → optAll (depthOk h fuel) op = true →
      ∃ oq h₁, copyOptPointer cp h op = .ok (oq, h₁) := by
  intro op h hwf hd
  cases op with
  | none => exact ⟨Option.none, h, rfl⟩
  | some p =>
    obtain ⟨q, h₂, hq⟩ := Htot h p hwf hd
    exact ⟨Option.some q, h₂, by simp only [copyOptPointer, hq]⟩

theorem copyOptBinding_total {fuel : Nat} {cp : Copier} (Hok : CpOk fuel cp)
    (Htot : CpTotal fuel cp) :
    ∀ (ob : Option Binding) (h : Heap), h.WF → optAll (bindingAll (depthOk h fuel)) ob = true →
      ∃ ob₁ h₁, copyOptBinding cp h ob = .ok (ob₁, h₁) := by
  intro ob h hwf hd
  cases ob with
  | none => exact ⟨Option.none, h, rfl⟩
  | some b =>
    obtain ⟨b₁, h₂, hb⟩ := clone_to_total Hok Htot b h hwf hd
    exact ⟨Option.some b₁, h₂, by simp only [copyOptBinding, hb]⟩

theorem copyOptAttributes_total {fuel : Nat} {cp : Copier} (Hok : CpOk fuel cp)
    (Htot : CpTotal fuel cp) :
    ∀ (om : Option AttributesMap) (h : Heap), h.WF →
      optAll (attrsAll (depthOk h fuel)) om = true →
      ∃ om₁ h₁, copyOptAttributes cp h om = .ok (om₁, h₁) := by
  intro om h hwf hd
  cases om with
  | none => exact ⟨Option.none, h, rfl⟩
  | some m =>
    obtain ⟨m₁, h₂, hm⟩ := copyAttributes_total Hok Htot m h hwf hd
    exact ⟨Option.some m₁, h₂, by simp only [copyOptAttributes, hm]⟩

theorem copyValue_total {fuel : Nat} {cp : Copier} (Hok : CpOk fuel cp)
    (Htot : CpTotal fuel cp) :
    ∀ (v : ObjectValue) (h : Heap), h.WF → valueOk (depthOk h fuel) v = true →
      ∃ v₁ h₁, copyValue cp h v = .ok (v₁, h₁) := by
  intro v h hwf hd
  cases v with
  | none => exact ⟨.none, h, rfl⟩
  | float num => exact ⟨.float num, h, rfl⟩
  | integer num => exact ⟨.integer num, h, rfl⟩
  | bigInt num => exact ⟨.bigInt num, h, rfl⟩
  | string s => exact ⟨.string s, h, rfl⟩
  | internedString s => exact ⟨.internedString s, h, rfl⟩
  | array elems =>
    obtain ⟨elems₁, h₂, he⟩ := copyPointers_total Hok Htot elems h hwf hd
    exact ⟨.array elems₁, h₂, by simp only [copyValue, he]⟩
  | file fd => simp [valueOk] at hd
  | block code captures receiver module =>
    simp only [valueOk, Bool.and_eq_true] at hd
    obtain ⟨cap₁, h₂, hcap⟩ := copyOptBinding_total Hok Htot captures h hwf hd.1
    obtain ⟨hwf₂, hx₂, _⟩ := copyOptBinding_ok Hok captures h cap₁ h₂ hwf hcap
    obtain ⟨r, h₃, hr⟩ := Htot h₂ receiver hwf₂ (depthOk_mono hx₂ fuel receiver hd.2)
    exact ⟨.block code cap₁ r module, h₃, by simp only [copyValue, hcap, hr]⟩
  | binding b =>
    obtain ⟨b₁, h₂, hb⟩ := clone_to_total Hok Htot b h hwf hd
    exact ⟨.binding b₁, h₂, by simp only [copyValue, hb]⟩
  | hasher state => exact ⟨.hasher state, h, rfl⟩
  | byteArray bytes => exact ⟨.byteArray bytes, h, rfl⟩
  | library val => exact ⟨.library val, h, rfl⟩
  | function val => exact ⟨.function val, h, rfl⟩
  | pointer val => exact ⟨.pointer val, h, rfl⟩
  | process val => exact ⟨.process val, h, rfl⟩
  | socket val => exact ⟨.socket val, h, rfl⟩
  | module val => exact ⟨.module val, h, rfl⟩

theorem copyObjectStep_total {fuel : Nat} {cp : Copier} (Hok : CpOk fuel cp)
    (Htot : CpTotal fuel cp) :
    ∀ (h : Heap) (p : ObjectPointer), h.WF →
      reachOkStep h (depthOk h fuel) p = true →
      ∃ q h₁, copyObjectStep cp h p = .ok (q, h₁) := by
  intro h p hwf hd
  simp only [reachOkStep] at hd
  split at hd
  · next hp =>
    have hp₁ : p.is_permanent = true := hp
    exact ⟨p, h, by simp only [copyObjectStep]; rw [if_pos hp₁]⟩
  · next hp =>
    have hp₁ : ¬ p.is_permanent = true := hp
    split at hd
    · next hlp => simp at hd
    · next o hlp =>
      simp only [Bool.and_eq_true] at hd
      obtain ⟨v₁, h₂, hv⟩ := copyValue_total Hok Htot o.value h hwf hd.1.1
      obtain ⟨hwf₂, hx₂, _⟩ := copyValue_ok Hok o.value h v₁ h₂ hwf hv
      obtain ⟨op₁, h₃, hpr⟩ := copyOptPointer_total Htot o.prototype h₂ hwf₂
        (optAll_imp (fun a ha => depthOk_mono hx₂ fuel a ha) hd.1.2)
      obtain ⟨hwf₃, hx₃, _⟩ := copyOptPointer_ok Hok o.prototype h₂ op₁ h₃ hwf₂ hpr
      obtain ⟨oa₁, h₄, ha⟩ := copyOptAttributes_total Hok Htot o.attributes h₃ hwf₃
        (optAll_imp (fun a has =>
          attrsAll_imp (fun b hb => depthOk_mono (hx₂.trans hx₃) fuel b hb) has) hd.2)
      refine ⟨(h₄.alloc { prototype := op₁, attributes := oa₁, value := v₁ }).1,
        (h₄.alloc { prototype := op₁, attributes := oa₁, value := v₁ }).2, ?_⟩
      simp only [copyObjectStep]
      rw [if_neg hp₁]
      simp only [hlp, hv, hpr, ha]

theorem copy_object_total : ∀ fuel, CpTotal fuel (copy_object fuel) := by
  intro fuel
  induction fuel with
  | zero => intro h p hwf hd; simp [depthOk] at hd
  | succ n ih =>
    intro h p hwf hd
    simp only [depthOk] at hd
    obtain ⟨q, h₁, hc⟩ := copyObjectStep_total (copy_object_ok n) ih h p hwf hd
    exact ⟨q, h₁, by simp only [copy_object]; exact hc⟩

/-! ## Theorems: extraction helpers for the copy claims -/

theorem valueCheck_array {chk : ObjectPointer → ObjectPointer → Bool}
    {elems : List ObjectPointer} {v : ObjectValue}
    (hv : valueCheck chk (.array elems) v = true) :
    ∃ elems₁, v = .array elems₁ ∧ listCheck chk elems elems₁ = true := by
  cases v
  case array elems₁ => exact ⟨elems₁, rfl, hv⟩
  all_goals simp [valueCheck] at hv

theorem listCheck_length {α β : Type} {chk : α → β → Bool} :
    ∀ {xs : List α} {ys : List β}, listCheck chk xs ys = true → ys.length = xs.length := by
  intro xs
  induction xs with
  | nil => intro ys h; cases ys <;> simp_all [listCheck]
  | cons x xs ih =>
    intro ys h
    cases ys with
    | nil => simp [listCheck] at h
    | cons y ys =>
      simp only [listCheck, Bool.and_eq_true] at h
      simp [ih h.2]

theorem listCheck_partner {α β : Type} {chk : α → β → Bool} :
    ∀ {xs : List α} {ys : List β}, listCheck chk xs ys = true →
      ∀ y ∈ ys, ∃ x, chk x y = true := by
  intro xs
  induction xs with
  | nil =>
    intro ys h y hy
    cases ys with
    | nil => simp at hy
    | cons z zs => simp [listCheck] at h
  | cons x xs ih =>
    intro ys h y hy
    cases ys with
    | nil => simp at hy
    | cons z zs =>
      simp only [listCheck, Bool.and_eq_true] at h
      rcases List.mem_cons.mp hy with rfl | hy₁
      · exact ⟨x, h.1⟩
      · exact ih h.2 y hy₁

/-! ## Theorems: the copy-object claims -/

/-- C1: for every acyclic object graph (operationally: valid, file-free and
of depth at most `d`) reachable from the source pointer in a well-formed
heap, `copy_object` produces a pointer `q` into an extended heap whose graph
is structurally equal to the source graph — same value kinds, same scalar
payloads, same attribute entries, prototype evacuated and attached when
present — and every non-permanent node of the copy lies at or above the
original heap's watermark `h.next`, hence is pointer-disjoint from every
node of the source graph. -/
theorem copy_object_structural (h : Heap) (d : Nat) (p : ObjectPointer)
    (hwf : h.WF) (hdag : depthOk h d p = true) :
    ∃ q h₁, copy_object d h p = .ok (q, h₁) ∧ h.Extends h₁ ∧
      ptrCopied h.next h₁ d p q = true := by
  obtain ⟨q, h₁, hc⟩ := copy_object_total d h p hwf hdag
  obtain ⟨_, hx, hchk⟩ := copy_object_ok d h p q h₁ hwf hc
  exact ⟨q, h₁, hc, hx, hchk⟩

theorem copy_object_structural_witness :
    ∃ q h₁, copy_object 2 exHeap exPtr = .ok (q, h₁) ∧ exHeap.Extends h₁ ∧
      ptrCopied exHeap.next h₁ 2 exPtr q = true :=
  copy_object_structural exHeap 2 exPtr (by unfold Heap.WF; decide) (by decide)

/-- C2: for every permanent pointer `p`, `copy_object` returns `p` itself
and leaves the heap untouched — no allocation is performed. -/
theorem copy_object_permanent (fuel : Nat) (h : Heap) (p : ObjectPointer)
    (hp : p.is_permanent = true) :
    copy_object (fuel + 1) h p = .ok (p, h) := by
  simp only [copy_object, copyObjectStep]
  rw [if_pos hp]

theorem copy_object_permanent_witness :
    copy_object 1 exHeap ⟨0, true⟩ = .ok (⟨0, true⟩, exHeap) :=
  copy_object_permanent 0 exHeap ⟨0, true⟩ rfl

/-- C4: evacuating a non-permanent object whose value is an open file
handle is fatal: `copy_object` hits the `panic!` branch (modelled as the
`fileNotCloneable` error) instead of returning a copy. -/
theorem copy_object_file_fatal (fuel : Nat) (h : Heap) (p : ObjectPointer)
    (o : Object) (fd : Nat)
    (hp : p.is_permanent = false) (hl : h.lookup p.addr = Option.some o)
    (hv : o.value = .file fd) :
    copy_object (fuel + 1) h p = .error .fileNotCloneable := by
  simp only [copy_object, copyObjectStep]
  rw [if_neg (by simp [hp])]
  simp only [hl, hv, copyValue]

theorem copy_object_file_fatal_witness :
    copy_object 1 fileHeap filePtr = .error .fileNotCloneable :=
  copy_object_file_fatal 0 fileHeap filePtr { value := .file 3 } 3 rfl rfl rfl

/-- C5: under the precondition that the reachable graph is acyclic (valid,
file-free and of depth at most `d`), `copy_object` terminates successfully
with recursion fuel `d` — the fuel consumed is exactly the graph depth.
Without the precondition termination fails: on a self-referential array the
recursion exhausts every finite fuel. -/
theorem copy_object_termination :
    (∀ (h : Heap) (d : Nat) (p : ObjectPointer), h.WF → depthOk h d p = true →
      ∃ q h₁, copy_object d h p = .ok (q, h₁)) ∧
    (∀ fuel, copy_object fuel cyclicHeap cyclicPtr = .error .outOfFuel) := by
  constructor
  · intro h d p hwf hd
    exact copy_object_total d h p hwf hd
  · intro fuel
    induction fuel with
    | zero => rfl
    | succ n ih =>
      show copyObjectStep (copy_object n) cyclicHeap cyclicPtr = .error .outOfFuel
      simp only [copyObjectStep]
      rw [if_neg (by decide : ¬ cyclicPtr.is_permanent = true)]
      rw [show cyclicHeap.lookup cyclicPtr.addr =
        Option.some { value := .array [cyclicPtr] } from rfl]
      simp only [copyValue, copyPointers, ih]

theorem copy_object_termination_witness :
    (∃ q h₁, copy_object 2 exHeap exPtr = .ok (q, h₁)) ∧
    copy_object 7 cyclicHeap cyclicPtr = .error .outOfFuel :=
  ⟨copy_object_termination.1 exHeap 2 exPtr (by unfold Heap.WF; decide) (by decide),
   copy_object_termination.2 7⟩

/-- C3: evacuating a non-permanent array object yields a new array object
(non-permanent, at a fresh address) of the same length whose elements, in
order, are copies of the corresponding source elements; every non-permanent
copied element is fresh, so overwriting a copied element's cell leaves
every cell of the source heap (addresses below `h.next`) unchanged. -/
theorem copy_object_array (fuel : Nat) (h : Heap) (p q : ObjectPointer) (h₁ : Heap)
    (o : Object) (elems : List ObjectPointer)
    (hwf : h.WF) (hp : p.permanent = false)
    (hl : h.lookup p.addr = Option.some o) (hv : o.value = .array elems)
    (hc : copy_object (fuel + 1) h p = .ok (q, h₁)) :
    q.permanent = false ∧ h.next ≤ q.addr ∧
    ∃ o₁ elems₁,
      h₁.lookup q.addr = Option.some o₁ ∧ o₁.value = .array elems₁ ∧
      elems₁.length = elems.length ∧
      listCheck (ptrCopied h.next h₁ fuel) elems elems₁ = true ∧
      (∀ q₁ ∈ elems₁, q₁.permanent = false → h.next ≤ q₁.addr) ∧
      (∀ q₁ ∈ elems₁, q₁.permanent = false →
        ∀ (o₂ : Object) (a : Nat), a < h.next →
          (h₁.update q₁.addr o₂).lookup a = h₁.lookup a) := by
  obtain ⟨hwf₁, hx, hchk⟩ := copy_object_ok (fuel + 1) h p q h₁ hwf hc
  simp only [ptrCopied, ptrCheckStep] at hchk
  rw [if_neg (by simp [hp])] at hchk
  simp only [Bool.and_eq_true] at hchk
  have hqperm : q.permanent = false := by simpa using hchk.1.1
  refine ⟨hqperm, of_decide_eq_true hchk.1.2, ?_⟩
  have hrest := hchk.2
  split at hrest
  · next o₀ o₁ hlp₀ hlq =>
    have ho : o₀ = o := Option.some.inj (hlp₀.symm.trans (hx.2 _ _ hl))
    subst ho
    simp only [Bool.and_eq_true] at hrest
    obtain ⟨⟨hvchk, hpchk⟩, hachk⟩ := hrest
    rw [hv] at hvchk
    obtain ⟨elems₁, hov, hlchk⟩ := valueCheck_array hvchk
    refine ⟨o₁, elems₁, hlq, hov, listCheck_length hlchk, hlchk, ?_, ?_⟩
    · intro q₁ hq₁ hq₁p
      obtain ⟨x, hxchk⟩ := listCheck_partner hlchk q₁ hq₁
      exact ptrCopied_fresh hxchk hq₁p
    · intro q₁ hq₁ hq₁p o₂ a ha
      obtain ⟨x, hxchk⟩ := listCheck_partner hlchk q₁ hq₁
      have hfresh := ptrCopied_fresh hxchk hq₁p
      exact Heap.update_lookup_ne h₁ q₁.addr o₂ (by omega)
  · next => simp at hrest

theorem copy_object_array_witness :
    (⟨3, false⟩ : ObjectPointer).permanent = false ∧
    arrHeap.next ≤ (⟨3, false⟩ : ObjectPointer).addr ∧
    ∃ o₁ elems₁,
      arrHeapCopied.lookup (⟨3, false⟩ : ObjectPointer).addr = Option.some o₁ ∧
      o₁.value = .array elems₁ ∧
      elems₁.length = [(⟨0, false⟩ : ObjectPointer)].length ∧
      listCheck (ptrCopied arrHeap.next arrHeapCopied 1) [⟨0, false⟩] elems₁ = true ∧
      (∀ q₁ ∈ elems₁, q₁.permanent = false → arrHeap.next ≤ q₁.addr) ∧
      (∀ q₁ ∈ elems₁, q₁.permanent = false →
        ∀ (o₂ : Object) (a : Nat), a < arrHeap.next →
          (arrHeapCopied.update q₁.addr o₂).lookup a = arrHeapCopied.lookup a) :=
  copy_object_array 1 arrHeap arrPtr ⟨3, false⟩ arrHeapCopied
    { value := .array [⟨0, false⟩] } [⟨0, false⟩]
    (by unfold Heap.WF; decide) rfl rfl rfl rfl
